import Mathlib

/-!
# Multipart upload of `third_party/s3/s3.go`

A shallow embedding of `Upload` and `MultipartUpload` from
`src/third_party/s3/s3.go`, together with the properties of the part
splitting, the retry loop and the abort / complete bookkeeping.

Modelling conventions.

* Go `int` values (`start`, `currentSize`, `remaining`, `partNum`, `try`,
  `PartSize`, `Retries`) are `Int`.  No wrap-around is modelled: `start` is
  read only while `start < len(buf)`, `partNum` is at most `len(buf) + 1`
  and `try` never exceeds `Retries`, so the only increment that could leave
  the machine range is the last `start += PartSize`, whose result is never
  read.
* `PartSize` and `Retries` are package-level *variables* in the source, so
  they are carried in a `Config`; `Config.initial` holds the values the
  source initialises them with.
* The object store (the AWS SDK client returned by `getSvc()`) is an
  external collaborator.  It is modelled as a deterministic oracle `Store`:
  each call is answered as a function of the history of calls made so far
  and of the call's input.  Every call and its answer is recorded, in
  order, in `World.trace`; every `log.Print*` is recorded in `World.log`.
* A loop is a function with a fuel argument that counts iterations; `none`
  means the fuel ran out before the loop exited.
* `getSvc()` and `getSession()` only build the client; they are taken to
  succeed (they panic before any store call otherwise).
* A payload is a list of bytes; the capacity of the slice `buf` is taken to
  be its length.
-/

namespace S3

/-- One byte of a payload. -/
abbrev Byte := Fin 256

/-- A Go `error` value that is not `nil`. -/
abbrev Error := String

/-- The package-level settings read by `Upload` and `MultipartUpload`. -/
structure Config where
  bucket : String
  PartSize : Int
  Retries : Int
deriving DecidableEq

/-- The values the source gives `PartSize` and `Retries` (s3.go, lines 32-33). -/
def Config.initial (bucket : String) : Config :=
  { bucket := bucket, PartSize := 5 * 1024 * 1024, Retries := 2 }

/-- The fields of `s3.CreateMultipartUploadInput` set by the source
(`Expires` is a wall-clock value and is left out). -/
structure CreateMultipartUploadInput where
  ACL : String
  Bucket : String
  Key : String
deriving DecidableEq

/-- The fields of `s3.CreateMultipartUploadOutput` read by the source. -/
structure CreateMultipartUploadOutput where
  Bucket : String
  Key : String
  UploadId : String
deriving DecidableEq

/-- The `s3.UploadPartInput` built by `Upload`. -/
structure UploadPartInput where
  Body : List Byte
  Bucket : String
  Key : String
  PartNumber : Int
  UploadId : String
  ContentLength : Int
deriving DecidableEq

/-- The field of `s3.UploadPartOutput` read by the source. -/
structure UploadPartOutput where
  ETag : String
deriving DecidableEq

/-- The `s3.CompletedPart` built by `Upload`. -/
structure CompletedPart where
  ETag : String
  PartNumber : Int
deriving DecidableEq

/-- The `s3.AbortMultipartUploadInput` built by `MultipartUpload`. -/
structure AbortMultipartUploadInput where
  Bucket : String
  Key : String
  UploadId : String
deriving DecidableEq

/-- The `s3.CompleteMultipartUploadInput` built by `MultipartUpload`; an
entry of `Parts` is `none` for a nil `*s3.CompletedPart`. -/
structure CompleteMultipartUploadInput where
  Bucket : String
  Key : String
  UploadId : String
  Parts : List (Option CompletedPart)
deriving DecidableEq

/-- The answer of a store call that yields a value. -/
inductive Reply (α : Type) where
  | ok (value : α)
  | error (err : Error)
deriving DecidableEq

/-- A store call together with the answer it got. -/
inductive Event where
  | CreateMultipartUpload (input : CreateMultipartUploadInput)
      (result : Reply CreateMultipartUploadOutput)
  | UploadPart (input : UploadPartInput) (result : Reply UploadPartOutput)
  | AbortMultipartUpload (input : AbortMultipartUploadInput) (err : Option Error)
  | CompleteMultipartUpload (input : CompleteMultipartUploadInput) (err : Option Error)
deriving DecidableEq

/-- The object store: each call is answered from the calls made so far and
the call's input. -/
structure Store where
  CreateMultipartUpload : List Event → CreateMultipartUploadInput →
    Reply CreateMultipartUploadOutput
  UploadPart : List Event → UploadPartInput → Reply UploadPartOutput
  AbortMultipartUpload : List Event → AbortMultipartUploadInput → Option Error
  CompleteMultipartUpload : List Event → CompleteMultipartUploadInput → Option Error

/-- The lines written with `log.Println` / `log.Printf`. -/
inductive LogLine where
  | UploadPartFailed (err : Error)
  | CreateFailed (err : Error)
  | AbortFailed (err : Error)
  | PartComplete (partNum : Int) (remaining : Int)
  | CompleteFailed (err : Error)
  | CompleteSucceeded
deriving DecidableEq

/-- What is observable of a run: the store calls and the log lines, oldest first. -/
structure World where
  trace : List Event
  log : List LogLine
deriving DecidableEq

/-- The world before any call. -/
def World.empty : World := { trace := [], log := [] }

/-- Record a store call. -/
def World.record (w : World) (e : Event) : World :=
  { w with trace := w.trace ++ [e] }

/-- Record a log line. -/
def World.logLine (w : World) (l : LogLine) : World :=
  { w with log := w.log ++ [l] }

/-- The `s3.UploadPartInput` of lines 143-150. -/
def uploadPartInput (resp : CreateMultipartUploadOutput) (fileBytes : List Byte)
    (partNum : Int) : UploadPartInput :=
  { Body := fileBytes
    Bucket := resp.Bucket
    Key := resp.Key
    PartNumber := partNum
    UploadId := resp.UploadId
    ContentLength := fileBytes.length }

/-- The loop `for try <= Retries { ... }` of `Upload` (lines 142-169) followed
by the `return nil, nil` of line 171.  The result is the pair
`(completedPart, err)` that `Upload` returns; `try_` is the source's `try`. -/
def Upload.loop (cfg : Config) (st : Store) (resp : CreateMultipartUploadOutput)
    (fileBytes : List Byte) (partNum : Int) :
    Nat → Int → World → Option ((Option CompletedPart × Option Error) × World)
  | fuel, try_, w =>
    if try_ ≤ cfg.Retries then
      match fuel with
      | 0 => none
      | fuel + 1 =>
        let input := uploadPartInput resp fileBytes partNum
        let result := st.UploadPart w.trace input
        let w1 := w.record (Event.UploadPart input result)
        match result with
        | Reply.error err =>
          let w2 := w1.logLine (LogLine.UploadPartFailed err)
          if try_ = cfg.Retries then
            some ((none, some err), w2)
          else
            Upload.loop cfg st resp fileBytes partNum fuel (try_ + 1) w2
        | Reply.ok uploadResp =>
          some ((some { ETag := uploadResp.ETag, PartNumber := partNum }, none), w1)
    else
      some ((none, none), w)

/-- The function `Upload` (lines 140-172): `var try int` starts the loop at 0. -/
def Upload (cfg : Config) (st : Store) (fuel : Nat) (resp : CreateMultipartUploadOutput)
    (fileBytes : List Byte) (partNum : Int) (w : World) :
    Option ((Option CompletedPart × Option Error) × World) :=
  Upload.loop cfg st resp fileBytes partNum fuel 0 w

/-- The slice expression `buf[lo:hi]`; `none` is the run-time panic for
bounds out of range.  The capacity of `buf` is taken to be its length. -/
def sliceBytes (buf : List Byte) (lo hi : Int) : Option (List Byte) :=
  if 0 ≤ lo ∧ lo ≤ hi ∧ hi ≤ (buf.length : Int) then
    some ((buf.drop lo.toNat).take (hi - lo).toNat)
  else
    none

/-- The `if remaining < PartSize` of lines 198-202. -/
def currentSizeOf (cfg : Config) (remaining : Int) : Int :=
  if remaining < cfg.PartSize then remaining else cfg.PartSize

/-- How the splitting loop of `MultipartUpload` is left. -/
inductive LoopResult where
  | exited (completedParts : List (Option CompletedPart))
  | returned (err : Error)
  | panicked
deriving DecidableEq

/-- The `s3.AbortMultipartUploadInput` of lines 208-212. -/
def abortInput (createdResp : CreateMultipartUploadOutput) : AbortMultipartUploadInput :=
  { Bucket := createdResp.Bucket, Key := createdResp.Key, UploadId := createdResp.UploadId }

/-- The loop `for start = 0; remaining != 0; start += PartSize { ... }` of
`MultipartUpload` (lines 197-227); `fuel` counts its iterations and `ufuel`
those of each `Upload`. -/
def MultipartUpload.loop (cfg : Config) (st : Store)
    (createdResp : CreateMultipartUploadOutput) (buf : List Byte) (ufuel : Nat) :
    Nat → Int → Int → Int → List (Option CompletedPart) → World →
      Option (LoopResult × World)
  | fuel, start, remaining, partNum, completedParts, w =>
    if remaining = 0 then
      some (LoopResult.exited completedParts, w)
    else
      match fuel with
      | 0 => none
      | fuel + 1 =>
        let currentSize := currentSizeOf cfg remaining
        match sliceBytes buf start (start + currentSize) with
        | none => some (LoopResult.panicked, w)
        | some body =>
          match Upload cfg st ufuel createdResp body partNum w with
          | none => none
          | some ((completed, err), w1) =>
            let aborted : Option Error × World :=
              match err with
              | some _ =>
                let input := abortInput createdResp
                let aerr := st.AbortMultipartUpload w1.trace input
                (aerr, w1.record (Event.AbortMultipartUpload input aerr))
              | none => (none, w1)
            match aborted with
            | (some aerr, w2) =>
              some (LoopResult.returned aerr, w2.logLine (LogLine.AbortFailed aerr))
            | (none, w2) =>
              let remaining1 := remaining - currentSize
              let w3 := w2.logLine (LogLine.PartComplete partNum remaining1)
              MultipartUpload.loop cfg st createdResp buf ufuel fuel
                (start + cfg.PartSize) remaining1 (partNum + 1)
                (completedParts ++ [completed]) w3

/-- How a call of `MultipartUpload` ends: it returns its `error` result
(`none` for `nil`), or it panics on a slice out of range. -/
inductive Outcome where
  | returned (err : Option Error)
  | panicked
deriving DecidableEq

/-- The `s3.CreateMultipartUploadInput` of lines 180-185. -/
def createInput (cfg : Config) (key : String) : CreateMultipartUploadInput :=
  { ACL := "public-read", Bucket := cfg.bucket, Key := key }

/-- The `s3.CompleteMultipartUploadInput` of lines 230-237. -/
def completeInput (createdResp : CreateMultipartUploadOutput)
    (completedParts : List (Option CompletedPart)) : CompleteMultipartUploadInput :=
  { Bucket := createdResp.Bucket
    Key := createdResp.Key
    UploadId := createdResp.UploadId
    Parts := completedParts }

/-- What `MultipartUpload` does once the splitting loop is left (lines
206-216 for a return or panic inside the loop, lines 229-244 after it). -/
def MultipartUpload.finish (st : Store) (createdResp : CreateMultipartUploadOutput) :
    LoopResult × World → Outcome × World
  | (LoopResult.panicked, w1) => (Outcome.panicked, w1)
  | (LoopResult.returned err, w1) => (Outcome.returned (some err), w1)
  | (LoopResult.exited completedParts, w1) =>
    let input := completeInput createdResp completedParts
    let cerr := st.CompleteMultipartUpload w1.trace input
    let w2 := w1.record (Event.CompleteMultipartUpload input cerr)
    match cerr with
    | some err => (Outcome.returned (some err), w2.logLine (LogLine.CompleteFailed err))
    | none => (Outcome.returned none, w2.logLine LogLine.CompleteSucceeded)

/-- The function `MultipartUpload` (lines 175-245); `fuel` bounds the iterations of the
splitting loop and `ufuel` those of each `Upload`. -/
def MultipartUpload (cfg : Config) (st : Store) (fuel ufuel : Nat) (key : String)
    (buf : List Byte) (w : World) : Option (Outcome × World) :=
  let cinput := createInput cfg key
  let created := st.CreateMultipartUpload w.trace cinput
  let w0 := w.record (Event.CreateMultipartUpload cinput created)
  match created with
  | Reply.error err => some (Outcome.returned (some err), w0.logLine (LogLine.CreateFailed err))
  | Reply.ok createdResp =>
    (MultipartUpload.loop cfg st createdResp buf ufuel fuel 0 (buf.length : Int) 1 [] w0).map
      (MultipartUpload.finish st createdResp)

/-! ## Definitions used to state the properties -/

/-- The trace entry of an upload-part call that failed with `e`. -/
def failedPart (input : UploadPartInput) (e : Error) : Event :=
  Event.UploadPart input (Reply.error e)

/-- Starting from the history `h`, the store answers the next `errs.length`
upload-part calls with input `input` with the errors `errs`, in order. -/
def FailsWith (st : Store) (input : UploadPartInput) : List Event → List Error → Prop
  | _, [] => True
  | h, e :: es =>
    st.UploadPart h input = Reply.error e ∧ FailsWith st input (h ++ [failedPart input e]) es

/-- The world after the failed attempts `errs`. -/
def World.afterFailures (w : World) (input : UploadPartInput) (errs : List Error) : World :=
  { trace := w.trace ++ errs.map (failedPart input)
    log := w.log ++ errs.map LogLine.UploadPartFailed }

/-- The number of parts of a payload of `S` bytes cut into parts of `P` bytes: `ceil(S / P)`. -/
def numParts (S P : Nat) : Nat := (S + P - 1) / P

/-- The bytes `buf[i*P .. min((i+1)*P, len(buf)))`. -/
def partBody (P : Nat) (buf : List Byte) (i : Nat) : List Byte :=
  (buf.drop (i * P)).take P

/-- The iterations of the splitting loop of `MultipartUpload`, run over a
given list of part bodies instead of over `start` and `PartSize`. -/
def runParts (cfg : Config) (st : Store) (createdResp : CreateMultipartUploadOutput)
    (ufuel : Nat) :
    List (List Byte) → Int → Int → List (Option CompletedPart) → World →
      Option (LoopResult × World)
  | [], _, _, completedParts, w => some (LoopResult.exited completedParts, w)
  | body :: rest, remaining, partNum, completedParts, w =>
    match Upload cfg st ufuel createdResp body partNum w with
    | none => none
    | some ((completed, err), w1) =>
      let aborted : Option Error × World :=
        match err with
        | some _ =>
          let input := abortInput createdResp
          let aerr := st.AbortMultipartUpload w1.trace input
          (aerr, w1.record (Event.AbortMultipartUpload input aerr))
        | none => (none, w1)
      match aborted with
      | (some aerr, w2) =>
        some (LoopResult.returned aerr, w2.logLine (LogLine.AbortFailed aerr))
      | (none, w2) =>
        let remaining1 := remaining - body.length
        let w3 := w2.logLine (LogLine.PartComplete partNum remaining1)
        runParts cfg st createdResp ufuel rest remaining1 (partNum + 1)
          (completedParts ++ [completed]) w3

/-- The input and the output of a successful upload-part call. -/
def okPart : Event → Option (UploadPartInput × UploadPartOutput)
  | Event.UploadPart input (Reply.ok out) => some (input, out)
  | _ => none

/-- The input of an upload-part call. -/
def uploadInput : Event → Option UploadPartInput
  | Event.UploadPart input _ => some input
  | _ => none

/-- The completed part that `Upload` builds from a successful upload-part call. -/
def completedOf (x : UploadPartInput × UploadPartOutput) : CompletedPart :=
  { ETag := x.2.ETag, PartNumber := x.1.PartNumber }

/-- The upload-part inputs for the bodies `bodies`, numbered from `partNum`. -/
def inputsFrom (createdResp : CreateMultipartUploadOutput) :
    List (List Byte) → Int → List UploadPartInput
  | [], _ => []
  | body :: rest, partNum =>
    uploadPartInput createdResp body partNum :: inputsFrom createdResp rest (partNum + 1)

/-- Every part upload succeeds within its retry budget: the store never
fails `Retries + 1` upload-part attempts in a row. -/
def PartsSucceed (cfg : Config) (st : Store) : Prop :=
  ∀ (h : List Event) (input : UploadPartInput) (errs : List Error),
    (errs.length : Int) = cfg.Retries + 1 → ¬ FailsWith st input h errs

/-- Every store call succeeds. -/
def Store.AlwaysSucceeds (st : Store) : Prop :=
  (∀ h i, ∃ out, st.CreateMultipartUpload h i = Reply.ok out) ∧
  (∀ h i, ∃ out, st.UploadPart h i = Reply.ok out) ∧
  (∀ h i, st.AbortMultipartUpload h i = none) ∧
  (∀ h i, st.CompleteMultipartUpload h i = none)

/-- The body lengths of the upload-part calls of a trace, in order. -/
def partLengths (ext : List Event) : List Nat :=
  (ext.filterMap uploadInput).map (fun i => i.Body.length)

/-! ## Example stores and payloads -/

/-- A store in which every call succeeds. -/
def okStore : Store :=
  { CreateMultipartUpload := fun _ i =>
      Reply.ok { Bucket := i.Bucket, Key := i.Key, UploadId := "upload-1" }
    UploadPart := fun _ _ => Reply.ok { ETag := "etag" }
    AbortMultipartUpload := fun _ _ => none
    CompleteMultipartUpload := fun _ _ => none }

/-- A store whose first two calls, if they are upload-part calls, time out. -/
def flakyStore : Store :=
  { okStore with
    UploadPart := fun h _ =>
      if h.length < 2 then Reply.error "timeout" else Reply.ok { ETag := "etag" } }

/-- A store that refuses every upload of part 1 and accepts everything else. -/
def part1FailsStore : Store :=
  { okStore with
    UploadPart := fun _ i =>
      if i.PartNumber = 1 then Reply.error "upload failed" else Reply.ok { ETag := "etag" } }

/-- A store that refuses every upload-part call and every abort call. -/
def deadStore : Store :=
  { okStore with
    UploadPart := fun _ _ => Reply.error "upload failed"
    AbortMultipartUpload := fun _ _ => some "abort failed" }

/-- The upload that the example stores create for key "key" in bucket "bucket". -/
def exampleUpload : CreateMultipartUploadOutput :=
  { Bucket := "bucket", Key := "key", UploadId := "upload-1" }

/-- A configuration with 2-byte parts and the retry budget of the source. -/
def smallConfig : Config := { bucket := "bucket", PartSize := 2, Retries := 2 }

/-- A configuration with `PartSize = 0`. -/
def zeroConfig : Config := { bucket := "bucket", PartSize := 0, Retries := 2 }

/-- A payload of 5 MiB + 1 byte: two parts under the initial part size. -/
def largePayload : List Byte := List.replicate (5 * 1024 * 1024 + 1) 0

/-- A payload of 10000 * 5 MiB + 1 byte. -/
def hugePayload : List Byte := List.replicate (10000 * (5 * 1024 * 1024) + 1) 0

/-- A 5-byte payload: three parts under `smallConfig`. -/
def smallPayload : List Byte := [1, 2, 3, 4, 5]

/-! ## The retry loop of `Upload` -/

theorem World.afterFailures_nil (w : World) (input : UploadPartInput) :
    w.afterFailures input [] = w := by
  simp [World.afterFailures]

theorem World.afterFailures_cons (w : World) (input : UploadPartInput) (e : Error)
    (es : List Error) :
    w.afterFailures input (e :: es) =
      World.afterFailures
        ((w.record (failedPart input e)).logLine (LogLine.UploadPartFailed e)) input es := by
  simp [World.afterFailures, World.record, World.logLine]

theorem Upload.loop_fail_then_ok (cfg : Config) (st : Store)
    (resp : CreateMultipartUploadOutput) (fileBytes : List Byte) (partNum : Int)
    (out : UploadPartOutput) :
    ∀ (errs : List Error) (try_ : Int) (fuel : Nat) (w : World),
      try_ + errs.length ≤ cfg.Retries → errs.length < fuel →
      FailsWith st (uploadPartInput resp fileBytes partNum) w.trace errs →
      st.UploadPart (w.afterFailures (uploadPartInput resp fileBytes partNum) errs).trace
        (uploadPartInput resp fileBytes partNum) = Reply.ok out →
      Upload.loop cfg st resp fileBytes partNum fuel try_ w =
        some ((some { ETag := out.ETag, PartNumber := partNum }, none),
          (w.afterFailures (uploadPartInput resp fileBytes partNum) errs).record
            (Event.UploadPart (uploadPartInput resp fileBytes partNum) (Reply.ok out))) := by
  intro errs
  induction errs with
  | nil =>
    intro try_ fuel w htry hfuel _ hok
    obtain ⟨fuel, rfl⟩ : ∃ k, fuel = k + 1 := ⟨fuel - 1, by simp at hfuel; omega⟩
    rw [World.afterFailures_nil] at hok ⊢
    have h1 : try_ ≤ cfg.Retries := by simpa using htry
    rw [Upload.loop]
    simp [h1, hok]
  | cons e es ih =>
    intro try_ fuel w htry hfuel hf hok
    obtain ⟨fuel, rfl⟩ : ∃ k, fuel = k + 1 := ⟨fuel - 1, by simp at hfuel; omega⟩
    obtain ⟨he, hes⟩ := hf
    simp only [List.length_cons, Nat.cast_add, Nat.cast_one] at htry
    have h1 : try_ ≤ cfg.Retries := by omega
    have h2 : ¬ try_ = cfg.Retries := by omega
    rw [World.afterFailures_cons] at hok ⊢
    rw [Upload.loop]
    simp only [h1, he, h2, if_true, if_false]
    exact ih (try_ + 1) fuel _ (by omega) (by simpa using hfuel)
      (by simpa [World.record, World.logLine, failedPart] using hes) hok

theorem Upload.loop_all_fail (cfg : Config) (st : Store)
    (resp : CreateMultipartUploadOutput) (fileBytes : List Byte) (partNum : Int) :
    ∀ (errs : List Error) (e : Error) (try_ : Int) (fuel : Nat) (w : World),
      try_ + errs.length = cfg.Retries → errs.length < fuel →
      FailsWith st (uploadPartInput resp fileBytes partNum) w.trace (errs ++ [e]) →
      Upload.loop cfg st resp fileBytes partNum fuel try_ w =
        some ((none, some e),
          w.afterFailures (uploadPartInput resp fileBytes partNum) (errs ++ [e])) := by
  intro errs
  induction errs with
  | nil =>
    intro e try_ fuel w htry hfuel hf
    obtain ⟨fuel, rfl⟩ : ∃ k, fuel = k + 1 := ⟨fuel - 1, by simp at hfuel; omega⟩
    obtain ⟨he, -⟩ := hf
    have h1 : try_ = cfg.Retries := by simpa using htry
    rw [Upload.loop]
    simp [h1, he, World.afterFailures, World.record, World.logLine, failedPart]
  | cons e0 es ih =>
    intro e try_ fuel w htry hfuel hf
    obtain ⟨fuel, rfl⟩ : ∃ k, fuel = k + 1 := ⟨fuel - 1, by simp at hfuel; omega⟩
    obtain ⟨he, hes⟩ := hf
    simp only [List.length_cons, Nat.cast_add, Nat.cast_one] at htry
    have h1 : try_ ≤ cfg.Retries := by omega
    have h2 : ¬ try_ = cfg.Retries := by omega
    rw [List.cons_append, World.afterFailures_cons]
    rw [Upload.loop]
    simp only [h1, he, h2, if_true, if_false]
    exact ih e (try_ + 1) fuel _ (by omega) (by simpa using hfuel)
      (by simpa [World.record, World.logLine, failedPart] using hes)

/-- Whatever the store does, a run of `n + 1` attempts either fails every
time or meets a first success after at most `n` failures. -/
theorem failsWith_dichotomy (st : Store) (input : UploadPartInput) :
    ∀ (n : Nat) (h : List Event),
      (∃ errs : List Error, errs.length = n + 1 ∧ FailsWith st input h errs) ∨
      (∃ (errs : List Error) (out : UploadPartOutput), errs.length ≤ n ∧
        FailsWith st input h errs ∧
        st.UploadPart (h ++ errs.map (failedPart input)) input = Reply.ok out) := by
  intro n
  induction n with
  | zero =>
    intro h
    cases hr : st.UploadPart h input with
    | ok out => exact Or.inr ⟨[], out, by simp, trivial, by simpa using hr⟩
    | error e => exact Or.inl ⟨[e], by simp, hr, trivial⟩
  | succ n ih =>
    intro h
    cases hr : st.UploadPart h input with
    | ok out => exact Or.inr ⟨[], out, by simp, trivial, by simpa using hr⟩
    | error e =>
      rcases ih (h ++ [failedPart input e]) with ⟨errs, hl, hf⟩ | ⟨errs, out, hl, hf, hok⟩
      · exact Or.inl ⟨e :: errs, by simp [hl], hr, hf⟩
      · exact Or.inr ⟨e :: errs, out, by simp [hl], ⟨hr, hf⟩, by simpa using hok⟩

/-- The results of `Upload` for a non-negative retry budget, whatever the store does. -/
theorem Upload_cases (cfg : Config) (st : Store) (fuel : Nat)
    (resp : CreateMultipartUploadOutput) (fileBytes : List Byte) (partNum : Int) (w : World)
    (hR : 0 ≤ cfg.Retries) (hfuel : cfg.Retries < fuel) :
    (∃ (errs : List Error) (e : Error), (errs.length : Int) = cfg.Retries ∧
      FailsWith st (uploadPartInput resp fileBytes partNum) w.trace (errs ++ [e]) ∧
      Upload cfg st fuel resp fileBytes partNum w =
        some ((none, some e),
          w.afterFailures (uploadPartInput resp fileBytes partNum) (errs ++ [e]))) ∨
    (∃ (errs : List Error) (out : UploadPartOutput), (errs.length : Int) ≤ cfg.Retries ∧
      FailsWith st (uploadPartInput resp fileBytes partNum) w.trace errs ∧
      st.UploadPart (w.afterFailures (uploadPartInput resp fileBytes partNum) errs).trace
        (uploadPartInput resp fileBytes partNum) = Reply.ok out ∧
      Upload cfg st fuel resp fileBytes partNum w =
        some ((some { ETag := out.ETag, PartNumber := partNum }, none),
          (w.afterFailures (uploadPartInput resp fileBytes partNum) errs).record
            (Event.UploadPart (uploadPartInput resp fileBytes partNum) (Reply.ok out)))) := by
  obtain ⟨r, hr⟩ : ∃ r : Nat, cfg.Retries = r := ⟨cfg.Retries.toNat, by omega⟩
  rcases failsWith_dichotomy st (uploadPartInput resp fileBytes partNum) r w.trace with
    ⟨errs, hl, hf⟩ | ⟨errs, out, hl, hf, hok⟩
  · left
    obtain ⟨es, e, rfl⟩ : ∃ es e, errs = es ++ [e] := by
      rcases List.eq_nil_or_concat errs with h | ⟨es, e, h⟩
      · simp [h] at hl
      · exact ⟨es, e, by simpa using h⟩
    have hl' : es.length = r := by simpa using hl
    refine ⟨es, e, by omega, hf, ?_⟩
    exact Upload.loop_all_fail cfg st resp fileBytes partNum es e 0 fuel w (by omega) (by omega) hf
  · right
    refine ⟨errs, out, by omega, hf, by simpa [World.afterFailures] using hok, ?_⟩
    exact Upload.loop_fail_then_ok cfg st resp fileBytes partNum out errs 0 fuel w (by omega)
      (by omega) hf (by simpa [World.afterFailures] using hok)

/-- When the store fails `Retries + 1` attempts in a row, `Upload` gives up
with the last error. -/
theorem Upload_all_fail (cfg : Config) (st : Store) (fuel : Nat)
    (resp : CreateMultipartUploadOutput) (fileBytes : List Byte) (partNum : Int) (w : World)
    (errs : List Error) (hfuel : cfg.Retries < fuel)
    (hlen : (errs.length : Int) = cfg.Retries + 1)
    (hf : FailsWith st (uploadPartInput resp fileBytes partNum) w.trace errs) :
    Upload cfg st fuel resp fileBytes partNum w =
      some ((none, errs.getLast?),
        w.afterFailures (uploadPartInput resp fileBytes partNum) errs) := by
  rcases List.eq_nil_or_concat errs with h | ⟨es, e, h⟩
  · subst h
    have h0 : ¬ (0 : Int) ≤ cfg.Retries := by
      simp only [List.length_nil, Nat.cast_zero] at hlen
      omega
    rw [Upload, Upload.loop.eq_def]
    simp [h0, World.afterFailures]
  have h' : errs = es ++ [e] := by simpa using h
  subst h'
  have hl : (es.length : Int) = cfg.Retries := by
    simp only [List.length_append, List.length_singleton, Nat.cast_add, Nat.cast_one] at hlen
    omega
  have := Upload.loop_all_fail cfg st resp fileBytes partNum es e 0 fuel w (by omega) (by omega) hf
  simpa [Upload] using this

/-- C3: for every retry budget `Retries >= 0` (the number of entries of
`errs`), if the store fails the first `Retries` upload-part attempts and
answers the next one with `out`, then `Upload` returns no error and a
completed part carrying the given part number and the tag of `out`, after
exactly `Retries + 1` upload-part calls, each with the full body and the
given part number. -/
theorem Upload_succeeds_on_last_attempt (cfg : Config) (st : Store) (fuel : Nat)
    (resp : CreateMultipartUploadOutput) (fileBytes : List Byte) (partNum : Int) (w : World)
    (errs : List Error) (out : UploadPartOutput)
    (hRetries : (errs.length : Int) = cfg.Retries) (hfuel : cfg.Retries < fuel)
    (hfail : FailsWith st (uploadPartInput resp fileBytes partNum) w.trace errs)
    (hok : st.UploadPart (w.trace ++ errs.map (failedPart (uploadPartInput resp fileBytes partNum)))
      (uploadPartInput resp fileBytes partNum) = Reply.ok out) :
    ∃ w1 : World,
      Upload cfg st fuel resp fileBytes partNum w =
        some ((some { ETag := out.ETag, PartNumber := partNum }, none), w1) ∧
      w1.trace = w.trace ++
        (errs.map Reply.error ++ [Reply.ok out]).map
          (Event.UploadPart (uploadPartInput resp fileBytes partNum)) ∧
      ((errs.map (Reply.error : Error → Reply UploadPartOutput) ++ [Reply.ok out]).length : Int)
        = cfg.Retries + 1 ∧
      (uploadPartInput resp fileBytes partNum).Body = fileBytes ∧
      (uploadPartInput resp fileBytes partNum).PartNumber = partNum := by
  refine ⟨(w.afterFailures (uploadPartInput resp fileBytes partNum) errs).record
    (Event.UploadPart (uploadPartInput resp fileBytes partNum) (Reply.ok out)), ?_, ?_, ?_, rfl, rfl⟩
  · exact Upload.loop_fail_then_ok cfg st resp fileBytes partNum out errs 0 fuel w (by omega)
      (by omega) hfail (by simpa [World.afterFailures] using hok)
  · simp [World.afterFailures, World.record, failedPart, Function.comp_def]
  · simp
    omega

/-- C4: for every retry budget `Retries >= 0`, `Upload` returns, and it
returns an error exactly when the store fails `Retries + 1` consecutive
upload-part attempts; in that case it has made exactly those `Retries + 1`
calls, returns no completed part, and its error is that of the last
attempt.  In every case it makes at most `Retries + 1` calls. -/
theorem Upload_error_iff_retries_exhausted (cfg : Config) (st : Store) (fuel : Nat)
    (resp : CreateMultipartUploadOutput) (fileBytes : List Byte) (partNum : Int) (w : World)
    (hR : 0 ≤ cfg.Retries) (hfuel : cfg.Retries < fuel) :
    ∃ (completed : Option CompletedPart) (err : Option Error) (w1 : World),
      Upload cfg st fuel resp fileBytes partNum w = some ((completed, err), w1) ∧
      ((∃ e, err = some e) ↔
        ∃ errs : List Error, (errs.length : Int) = cfg.Retries + 1 ∧
          FailsWith st (uploadPartInput resp fileBytes partNum) w.trace errs) ∧
      (∀ errs : List Error, (errs.length : Int) = cfg.Retries + 1 →
        FailsWith st (uploadPartInput resp fileBytes partNum) w.trace errs →
        completed = none ∧ err = errs.getLast? ∧
        w1.trace = w.trace ++
          errs.map (failedPart (uploadPartInput resp fileBytes partNum))) ∧
      (∃ results : List (Reply UploadPartOutput),
        w1.trace = w.trace ++
          results.map (Event.UploadPart (uploadPartInput resp fileBytes partNum)) ∧
        (results.length : Int) ≤ cfg.Retries + 1) := by
  have key : ∀ (c : Option CompletedPart) (er : Option Error) (w1 : World),
      Upload cfg st fuel resp fileBytes partNum w = some ((c, er), w1) →
      ∀ errs : List Error, (errs.length : Int) = cfg.Retries + 1 →
        FailsWith st (uploadPartInput resp fileBytes partNum) w.trace errs →
        c = none ∧ er = errs.getLast? ∧
        w1.trace = w.trace ++
          errs.map (failedPart (uploadPartInput resp fileBytes partNum)) := by
    intro c er w1 hU errs hlen hf
    rw [Upload_all_fail cfg st fuel resp fileBytes partNum w errs hfuel hlen hf] at hU
    simp only [Option.some.injEq, Prod.mk.injEq] at hU
    obtain ⟨⟨h1, h2⟩, h3⟩ := hU
    exact ⟨h1.symm, h2.symm, by rw [← h3]; rfl⟩
  rcases Upload_cases cfg st fuel resp fileBytes partNum w hR hfuel with
    ⟨errs, e, hl, hf, hU⟩ | ⟨errs, out, hl, hf, hok, hU⟩
  · refine ⟨_, _, _, hU, ?_, key _ _ _ hU, ?_⟩
    · constructor
      · intro _
        exact ⟨errs ++ [e], by simp; omega, hf⟩
      · intro _
        exact ⟨e, rfl⟩
    · refine ⟨(errs ++ [e]).map Reply.error, ?_, by simp; omega⟩
      simp [World.afterFailures, failedPart, Function.comp_def]
  · refine ⟨_, _, _, hU, ?_, key _ _ _ hU, ?_⟩
    · constructor
      · rintro ⟨e, he⟩
        cases he
      · rintro ⟨errs', hlen', hf'⟩
        have := (key _ _ _ hU errs' hlen' hf').1
        cases this
    · refine ⟨errs.map Reply.error ++ [Reply.ok out], ?_, by simp; omega⟩
      simp [World.afterFailures, World.record, failedPart, Function.comp_def]

/-! ## The splitting loop as a run over the part bodies -/

theorem numParts_zero_iff (r p : Nat) (hp : 0 < p) : numParts r p = 0 ↔ r = 0 := by
  unfold numParts
  rw [Nat.div_eq_zero_iff hp]
  omega

theorem numParts_succ (r p k : Nat) (hp : 0 < p) (h : numParts r p = k + 1) :
    0 < r ∧ numParts (r - p) p = k := by
  have hr : 0 < r := by
    rcases Nat.eq_zero_or_pos r with h0 | h0
    · rw [h0, (numParts_zero_iff 0 p hp).2 rfl] at h
      omega
    · exact h0
  refine ⟨hr, ?_⟩
  unfold numParts at h ⊢
  by_cases hrp : p ≤ r
  · have e : r + p - 1 = (r - p + p - 1) + p := by omega
    rw [e, Nat.add_div_right _ hp] at h
    omega
  · have e : r - p + p - 1 < p := by omega
    have e2 : (r + p - 1) / p = 1 := by
      apply Nat.div_eq_of_lt_le <;> omega
    rw [Nat.div_eq_of_lt e]
    omega

theorem length_partBody (p : Nat) (buf : List Byte) (i : Nat) :
    (partBody p buf i).length = min p (buf.length - i * p) := by
  simp [partBody]

theorem sliceBytes_part (p : Nat) (buf : List Byte) (i : Nat) (h : i * p ≤ buf.length) :
    sliceBytes buf ((i * p : Nat) : Int)
      (((i * p : Nat) : Int) + ((min p (buf.length - i * p) : Nat) : Int)) =
      some (partBody p buf i) := by
  unfold sliceBytes partBody
  have h1 : (0 : Int) ≤ ((i * p : Nat) : Int) ∧
      ((i * p : Nat) : Int) ≤ ((i * p : Nat) : Int) + ((min p (buf.length - i * p) : Nat) : Int) ∧
      ((i * p : Nat) : Int) + ((min p (buf.length - i * p) : Nat) : Int) ≤ (buf.length : Int) := by
    refine ⟨by omega, by omega, ?_⟩
    have : min p (buf.length - i * p) ≤ buf.length - i * p := Nat.min_le_right _ _
    omega
  rw [if_pos h1]
  congr 1
  have e1 : (((i * p : Nat) : Int)).toNat = i * p := Int.toNat_natCast _
  have e2 : (((i * p : Nat) : Int) + ((min p (buf.length - i * p) : Nat) : Int)
      - ((i * p : Nat) : Int)).toNat = min p (buf.length - i * p) := by
    omega
  rw [e1, e2]
  rw [List.take_eq_take]
  simp

theorem currentSizeOf_eq (cfg : Config) (p r : Nat) (hP : cfg.PartSize = (p : Int)) :
    currentSizeOf cfg (r : Int) = ((min p r : Nat) : Int) := by
  unfold currentSizeOf
  rw [hP]
  split <;> omega

/-- With a positive part size and enough fuel the splitting loop is the run
over the part bodies `buf[i*P ..]`, `buf[(i+1)*P ..]`, ... -/
theorem MultipartUpload.loop_eq_runParts (cfg : Config) (st : Store)
    (createdResp : CreateMultipartUploadOutput) (buf : List Byte) (ufuel p : Nat)
    (hP : cfg.PartSize = (p : Int)) (hp : 0 < p) :
    ∀ (k i fuel : Nat) (partNum : Int) (completedParts : List (Option CompletedPart))
      (w : World),
      numParts (buf.length - i * p) p = k → k ≤ fuel →
      MultipartUpload.loop cfg st createdResp buf ufuel fuel ((i * p : Nat) : Int)
        ((buf.length - i * p : Nat) : Int) partNum completedParts w =
      runParts cfg st createdResp ufuel ((List.range' i k).map (partBody p buf))
        ((buf.length - i * p : Nat) : Int) partNum completedParts w := by
  intro k
  induction k with
  | zero =>
    intro i fuel partNum cps w hk _
    have h0 : buf.length - i * p = 0 := (numParts_zero_iff _ p hp).1 hk
    rw [MultipartUpload.loop.eq_def]
    simp [h0, runParts]
  | succ k ih =>
    intro i fuel partNum cps w hk hfuel
    obtain ⟨fuel, rfl⟩ : ∃ f, fuel = f + 1 := ⟨fuel - 1, by omega⟩
    obtain ⟨hr, hk'⟩ := numParts_succ _ p k hp hk
    have hne : ¬ ((buf.length - i * p : Nat) : Int) = 0 := by omega
    have hi : i * p ≤ buf.length := by omega
    have hnext : buf.length - i * p - p = buf.length - (i + 1) * p := by
      rw [Nat.succ_mul]
      omega
    rw [hnext] at hk'
    have hstart : ((i * p : Nat) : Int) + cfg.PartSize = (((i + 1) * p : Nat) : Int) := by
      rw [hP, Nat.succ_mul]
      push_cast
      ring
    have hrem : ((buf.length - i * p : Nat) : Int) - ((min p (buf.length - i * p) : Nat) : Int)
        = ((buf.length - (i + 1) * p : Nat) : Int) := by
      rw [Nat.succ_mul]
      omega
    rw [MultipartUpload.loop]
    simp only [if_neg hne, currentSizeOf_eq cfg p _ hP, sliceBytes_part p buf i hi, hstart, hrem]
    rw [List.range'_succ, List.map_cons, runParts]
    simp only [length_partBody, hrem]
    cases hU : Upload cfg st ufuel createdResp (partBody p buf i) partNum w with
    | none => rfl
    | some res =>
      obtain ⟨⟨completed, err⟩, w1⟩ := res
      simp only
      cases err with
      | none =>
        simp only
        exact ih (i + 1) fuel _ _ _ hk' (by omega)
      | some e =>
        simp only
        cases st.AbortMultipartUpload w1.trace (abortInput createdResp) with
        | none =>
          simp only
          exact ih (i + 1) fuel _ _ _ hk' (by omega)
        | some ae => rfl

/-! ## The splitting loop for an arbitrary store -/

/-- Whatever the store does and whatever the retry budget, `Upload` returns
once its fuel exceeds `Retries`; it only makes upload-part calls with its
own input, a completed part carries the given part number, and an error is
the one of the last log line. -/
theorem Upload_total (cfg : Config) (st : Store) (fuel : Nat)
    (resp : CreateMultipartUploadOutput) (fileBytes : List Byte) (partNum : Int) (w : World)
    (hfuel : cfg.Retries < fuel) :
    ∃ (c : Option CompletedPart) (e : Option Error) (w1 : World)
      (results : List (Reply UploadPartOutput)) (lines : List LogLine),
      Upload cfg st fuel resp fileBytes partNum w = some ((c, e), w1) ∧
      w1.trace = w.trace ++
        results.map (Event.UploadPart (uploadPartInput resp fileBytes partNum)) ∧
      w1.log = w.log ++ lines ∧
      (∀ cp, c = some cp → cp.PartNumber = partNum) ∧
      (∀ err, e = some err →
        (∃ lines0, lines = lines0 ++ [LogLine.UploadPartFailed err]) ∧
        (∃ results0, results = results0 ++ [Reply.error err])) := by
  by_cases hR : 0 ≤ cfg.Retries
  · rcases Upload_cases cfg st fuel resp fileBytes partNum w hR hfuel with
      ⟨errs, e, _, _, hU⟩ | ⟨errs, out, _, _, _, hU⟩
    · refine ⟨_, _, _, (errs ++ [e]).map Reply.error,
        (errs ++ [e]).map LogLine.UploadPartFailed, hU, ?_, ?_, ?_, ?_⟩
      · simp [World.afterFailures, failedPart, Function.comp_def]
      · simp [World.afterFailures]
      · intro cp h
        cases h
      · intro err h
        cases h
        exact ⟨⟨errs.map LogLine.UploadPartFailed, by simp⟩, ⟨errs.map Reply.error, by simp⟩⟩
    · refine ⟨_, _, _, errs.map Reply.error ++ [Reply.ok out],
        errs.map LogLine.UploadPartFailed, hU, ?_, ?_, ?_, ?_⟩
      · simp [World.afterFailures, World.record, failedPart, Function.comp_def]
      · simp [World.afterFailures, World.record]
      · intro cp h
        cases h
        rfl
      · intro err h
        cases h
  · refine ⟨none, none, w, [], [], ?_, by simp, by simp, ?_, ?_⟩
    · rw [Upload, Upload.loop.eq_def]
      simp [hR]
    · intro cp h
      cases h
    · intro err h
      cases h

/-- What the splitting loop does whatever the store answers: it returns,
never panics, calls only upload-part (for one of the given bodies, numbered
from `partNum`) and abort, exits with one entry per body, and returns an
error only right after a failed abort. -/
theorem runParts_any (cfg : Config) (st : Store) (createdResp : CreateMultipartUploadOutput)
    (ufuel : Nat) (hfuel : cfg.Retries < ufuel) :
    ∀ (bodies : List (List Byte)) (remaining partNum : Int)
      (cps : List (Option CompletedPart)) (w : World),
    ∃ (res : LoopResult) (w1 : World) (ext : List Event) (lines : List LogLine),
      runParts cfg st createdResp ufuel bodies remaining partNum cps w = some (res, w1) ∧
      w1.trace = w.trace ++ ext ∧
      w1.log = w.log ++ lines ∧
      (∀ e ∈ ext,
        (∃ (r : Reply UploadPartOutput) (j : Nat) (b : List Byte), bodies[j]? = some b ∧
          e = Event.UploadPart (uploadPartInput createdResp b (partNum + j)) r) ∨
        (∃ aerr, e = Event.AbortMultipartUpload (abortInput createdResp) aerr)) ∧
      (∀ cps1, res = LoopResult.exited cps1 →
        ∃ new : List (Option CompletedPart), cps1 = cps ++ new ∧ new.length = bodies.length ∧
          (∀ cp, some cp ∈ new →
            partNum ≤ cp.PartNumber ∧ cp.PartNumber < partNum + bodies.length) ∧
          (∀ ainp aerr, Event.AbortMultipartUpload ainp aerr ∈ ext → aerr = none)) ∧
      (∀ aerr, res = LoopResult.returned aerr →
        ∃ (ext0 : List Event) (lines0 : List LogLine) (input : UploadPartInput) (e : Error),
          ext = ext0 ++ [failedPart input e,
            Event.AbortMultipartUpload (abortInput createdResp) (some aerr)] ∧
          (∀ ainp x, Event.AbortMultipartUpload ainp x ∈ ext0 → x = none) ∧
          lines = lines0 ++ [LogLine.UploadPartFailed e, LogLine.AbortFailed aerr]) ∧
      res ≠ LoopResult.panicked := by
  intro bodies
  induction bodies with
  | nil =>
    intro remaining partNum cps w
    refine ⟨LoopResult.exited cps, w, [], [], by simp [runParts], by simp, by simp, by simp,
      ?_, ?_, by simp⟩
    · intro cps1 h
      cases h
      exact ⟨[], by simp, rfl, by simp, by simp⟩
    · intro aerr h
      cases h
  | cons body rest ih =>
    intro remaining partNum cps w
    obtain ⟨c, e, w1, results, lines1, hU, ht, hl, hc, he⟩ :=
      Upload_total cfg st ufuel createdResp body partNum w hfuel
    have hup : ∀ x ∈ results.map (Event.UploadPart (uploadPartInput createdResp body partNum)),
        (∃ (r : Reply UploadPartOutput) (j : Nat) (b : List Byte), (body :: rest)[j]? = some b ∧
          x = Event.UploadPart (uploadPartInput createdResp b (partNum + j)) r) ∨
        (∃ aerr, x = Event.AbortMultipartUpload (abortInput createdResp) aerr) := by
      intro x hx
      obtain ⟨r, -, rfl⟩ := List.mem_map.1 hx
      exact Or.inl ⟨r, 0, body, by simp, by simp⟩
    have hshift : ∀ x,
        ((∃ (r : Reply UploadPartOutput) (j : Nat) (b : List Byte), rest[j]? = some b ∧
          x = Event.UploadPart (uploadPartInput createdResp b (partNum + 1 + j)) r) ∨
        (∃ aerr, x = Event.AbortMultipartUpload (abortInput createdResp) aerr)) →
        ((∃ (r : Reply UploadPartOutput) (j : Nat) (b : List Byte), (body :: rest)[j]? = some b ∧
          x = Event.UploadPart (uploadPartInput createdResp b (partNum + j)) r) ∨
        (∃ aerr, x = Event.AbortMultipartUpload (abortInput createdResp) aerr)) := by
      rintro x (⟨r, j, b, hj, rfl⟩ | h)
      · refine Or.inl ⟨r, j + 1, b, by simpa using hj, ?_⟩
        congr 2
        push_cast
        ring
      · exact Or.inr h
    have hnum : ∀ (new : List (Option CompletedPart)),
        (∀ cp, some cp ∈ new →
          partNum + 1 ≤ cp.PartNumber ∧ cp.PartNumber < partNum + 1 + rest.length) →
        ∀ cp, some cp ∈ c :: new →
          partNum ≤ cp.PartNumber ∧ cp.PartNumber < partNum + (body :: rest).length := by
      intro new hnew cp hcp
      simp only [List.length_cons, Nat.cast_add, Nat.cast_one]
      rcases List.mem_cons.1 hcp with h | h
      · have := hc cp h.symm
        omega
      · have := hnew cp h
        omega
    rw [runParts, hU]
    cases e with
    | none =>
      simp only
      obtain ⟨res, w2, ext, lines, hrun, ht2, hl2, hev, hex, hret, hpan⟩ :=
        ih (remaining - body.length) (partNum + 1) (cps ++ [c])
          (w1.logLine (LogLine.PartComplete partNum (remaining - body.length)))
      refine ⟨res, w2, results.map (Event.UploadPart (uploadPartInput createdResp body partNum))
        ++ ext, lines1 ++ [LogLine.PartComplete partNum (remaining - body.length)] ++ lines,
        hrun, ?_, ?_, ?_, ?_, ?_, hpan⟩
      · rw [ht2]
        simp [World.logLine, ht]
      · rw [hl2]
        simp [World.logLine, hl]
      · intro x hx
        rcases List.mem_append.1 hx with h | h
        · exact hup x h
        · exact hshift x (hev x h)
      · intro cps1 h
        obtain ⟨new, h1, h2, h3, h4⟩ := hex cps1 h
        refine ⟨c :: new, by simp [h1], by simp [h2], hnum new h3, ?_⟩
        intro ainp aerr hmem
        rcases List.mem_append.1 hmem with h | h
        · obtain ⟨r, -, hr⟩ := List.mem_map.1 h
          cases hr
        · exact h4 ainp aerr h
      · intro aerr h
        obtain ⟨ext0, lines0, input0, e0, h1, h2, h3⟩ := hret aerr h
        refine ⟨results.map (Event.UploadPart (uploadPartInput createdResp body partNum)) ++ ext0,
          lines1 ++ [LogLine.PartComplete partNum (remaining - body.length)] ++ lines0, input0,
          e0, by simp [h1], ?_, by simp [h3]⟩
        intro ainp x hmem
        rcases List.mem_append.1 hmem with h | h
        · obtain ⟨r, -, hr⟩ := List.mem_map.1 h
          cases hr
        · exact h2 ainp x h
    | some err =>
      simp only
      cases hA : st.AbortMultipartUpload w1.trace (abortInput createdResp) with
      | none =>
        simp only
        obtain ⟨res, w2, ext, lines, hrun, ht2, hl2, hev, hex, hret, hpan⟩ :=
          ih (remaining - body.length) (partNum + 1) (cps ++ [c])
            ((w1.record (Event.AbortMultipartUpload (abortInput createdResp) none)).logLine
              (LogLine.PartComplete partNum (remaining - body.length)))
        refine ⟨res, w2,
          results.map (Event.UploadPart (uploadPartInput createdResp body partNum)) ++
            [Event.AbortMultipartUpload (abortInput createdResp) none] ++ ext,
          lines1 ++ [LogLine.PartComplete partNum (remaining - body.length)] ++ lines,
          hrun, ?_, ?_, ?_, ?_, ?_, hpan⟩
        · rw [ht2]
          simp [World.logLine, World.record, ht]
        · rw [hl2]
          simp [World.logLine, World.record, hl]
        · intro x hx
          rcases List.mem_append.1 hx with h | h
          · rcases List.mem_append.1 h with h | h
            · exact hup x h
            · exact Or.inr ⟨none, by simpa using h⟩
          · exact hshift x (hev x h)
        · intro cps1 h
          obtain ⟨new, h1, h2, h3, h4⟩ := hex cps1 h
          refine ⟨c :: new, by simp [h1], by simp [h2], hnum new h3, ?_⟩
          intro ainp aerr hmem
          rcases List.mem_append.1 hmem with h | h
          · rcases List.mem_append.1 h with h | h
            · obtain ⟨r, -, hr⟩ := List.mem_map.1 h
              cases hr
            · simp only [List.mem_singleton] at h
              cases h
              rfl
          · exact h4 ainp aerr h
        · intro aerr h
          obtain ⟨ext0, lines0, input0, e0, h1, h2, h3⟩ := hret aerr h
          refine ⟨results.map (Event.UploadPart (uploadPartInput createdResp body partNum)) ++
              [Event.AbortMultipartUpload (abortInput createdResp) none] ++ ext0,
            lines1 ++ [LogLine.PartComplete partNum (remaining - body.length)] ++ lines0, input0,
            e0, by simp [h1], ?_, by simp [h3]⟩
          intro ainp x hmem
          rcases List.mem_append.1 hmem with h | h
          · rcases List.mem_append.1 h with h | h
            · obtain ⟨r, -, hr⟩ := List.mem_map.1 h
              cases hr
            · simp only [List.mem_singleton] at h
              cases h
              rfl
          · exact h2 ainp x h
      | some aerr =>
        simp only
        obtain ⟨⟨lines0, hlines0⟩, ⟨results0, hresults0⟩⟩ := he err rfl
        refine ⟨LoopResult.returned aerr, _,
          results.map (Event.UploadPart (uploadPartInput createdResp body partNum)) ++
            [Event.AbortMultipartUpload (abortInput createdResp) (some aerr)],
          lines1 ++ [LogLine.AbortFailed aerr], rfl, ?_, ?_, ?_, ?_, ?_, by simp⟩
        · simp [World.logLine, World.record, ht]
        · simp [World.logLine, World.record, hl]
        · intro x hx
          rcases List.mem_append.1 hx with h | h
          · exact hup x h
          · exact Or.inr ⟨some aerr, by simpa using h⟩
        · intro cps1 h
          cases h
        · intro aerr' h
          cases h
          refine ⟨results0.map (Event.UploadPart (uploadPartInput createdResp body partNum)),
            lines0, uploadPartInput createdResp body partNum, err,
            by simp [hresults0, failedPart], ?_, by simp [hlines0]⟩
          intro ainp x hmem
          obtain ⟨r, -, hr⟩ := List.mem_map.1 hmem
          cases hr

/-! ## Runs in which every part is uploaded -/

theorem FailsWith.real (st : Store) (input : UploadPartInput) :
    ∀ (errs : List Error) (h : List Event), FailsWith st input h errs →
      ∀ e ∈ errs, ∃ h1, st.UploadPart h1 input = Reply.error e := by
  intro errs
  induction errs with
  | nil =>
    intro h _ e he
    cases he
  | cons e0 es ih =>
    intro h hf e he
    rcases List.mem_cons.1 he with rfl | h1
    · exact ⟨h, hf.1⟩
    · exact ih _ hf.2 e h1

theorem filterMap_okPart_failed (input : UploadPartInput) (errs : List Error) :
    (errs.map (failedPart input)).filterMap okPart = [] := by
  induction errs with
  | nil => rfl
  | cons e es ih => simp [failedPart, okPart]

/-- When every part upload succeeds within its retry budget, the splitting
loop exits with one completed part per body, built from the successful
upload-part calls, whose inputs are those of the bodies in order; the only
store calls are upload-part calls. -/
theorem runParts_parts_succeed (cfg : Config) (st : Store)
    (createdResp : CreateMultipartUploadOutput) (ufuel : Nat)
    (hR : 0 ≤ cfg.Retries) (hfuel : cfg.Retries < ufuel) (hs : PartsSucceed cfg st) :
    ∀ (bodies : List (List Byte)) (remaining partNum : Int)
      (cps : List (Option CompletedPart)) (w : World),
    ∃ (w1 : World) (ext : List Event),
      runParts cfg st createdResp ufuel bodies remaining partNum cps w =
        some (LoopResult.exited
          (cps ++ (ext.filterMap okPart).map (fun x => some (completedOf x))), w1) ∧
      w1.trace = w.trace ++ ext ∧
      (ext.filterMap okPart).map Prod.fst = inputsFrom createdResp bodies partNum ∧
      (∀ e ∈ ext, (∃ input out, e = Event.UploadPart input (Reply.ok out)) ∨
        (∃ input err h, e = failedPart input err ∧ st.UploadPart h input = Reply.error err)) := by
  intro bodies
  induction bodies with
  | nil =>
    intro remaining partNum cps w
    exact ⟨w, [], by simp [runParts], by simp, by simp [inputsFrom], by simp⟩
  | cons body rest ih =>
    intro remaining partNum cps w
    rcases Upload_cases cfg st ufuel createdResp body partNum w hR hfuel with
      ⟨errs, e, hl, hf, _⟩ | ⟨errs, out, _, hf, _, hU⟩
    · exact absurd hf (hs _ _ _ (by simp; omega))
    · obtain ⟨w1, ext, hrun, ht, hin, hev⟩ :=
        ih (remaining - body.length) (partNum + 1)
          (cps ++ [some { ETag := out.ETag, PartNumber := partNum }])
          (((w.afterFailures (uploadPartInput createdResp body partNum) errs).record
            (Event.UploadPart (uploadPartInput createdResp body partNum) (Reply.ok out))).logLine
            (LogLine.PartComplete partNum (remaining - body.length)))
      have hfm : (errs.map (failedPart (uploadPartInput createdResp body partNum)) ++
          [Event.UploadPart (uploadPartInput createdResp body partNum) (Reply.ok out)] ++
          ext).filterMap okPart =
          (uploadPartInput createdResp body partNum, out) :: ext.filterMap okPart := by
        rw [List.filterMap_append, List.filterMap_append, filterMap_okPart_failed]
        rfl
      refine ⟨w1, errs.map (failedPart (uploadPartInput createdResp body partNum)) ++
        [Event.UploadPart (uploadPartInput createdResp body partNum) (Reply.ok out)] ++ ext,
        ?_, ?_, ?_, ?_⟩
      · rw [runParts, hU]
        simp only
        rw [hrun, hfm]
        simp [completedOf, uploadPartInput]
      · rw [ht]
        simp [World.logLine, World.record, World.afterFailures]
      · rw [hfm]
        simp [inputsFrom, hin]
      · intro x hx
        rcases List.mem_append.1 hx with h | h
        · rcases List.mem_append.1 h with h | h
          · obtain ⟨e, he, rfl⟩ := List.mem_map.1 h
            obtain ⟨h1, hh1⟩ := FailsWith.real st _ errs _ hf e he
            exact Or.inr ⟨_, e, h1, rfl, hh1⟩
          · exact Or.inl ⟨_, out, by simpa using h⟩
        · exact hev x h

theorem inputsFrom_range' (createdResp : CreateMultipartUploadOutput) (f : Nat → List Byte) :
    ∀ (k i : Nat),
      inputsFrom createdResp ((List.range' i k).map f) ((i : Int) + 1) =
        (List.range' i k).map (fun j => uploadPartInput createdResp (f j) ((j : Int) + 1)) := by
  intro k
  induction k with
  | zero =>
    intro i
    simp [inputsFrom]
  | succ k ih =>
    intro i
    rw [List.range'_succ, List.map_cons, List.map_cons, inputsFrom]
    have := ih (i + 1)
    push_cast at this
    rw [this]

theorem join_partBody (p : Nat) (buf : List Byte) (hp : 0 < p) :
    ∀ (k i : Nat), numParts (buf.length - i * p) p = k →
      ((List.range' i k).map (partBody p buf)).flatten = buf.drop (i * p) := by
  intro k
  induction k with
  | zero =>
    intro i hk
    have h0 : buf.length - i * p = 0 := (numParts_zero_iff _ p hp).1 hk
    have : buf.length ≤ i * p := by omega
    simp [List.drop_eq_nil_of_le this]
  | succ k ih =>
    intro i hk
    obtain ⟨_, hk'⟩ := numParts_succ _ p k hp hk
    have hnext : buf.length - i * p - p = buf.length - (i + 1) * p := by
      rw [Nat.succ_mul]
      omega
    rw [hnext] at hk'
    rw [List.range'_succ, List.map_cons, List.flatten_cons, ih (i + 1) hk', partBody]
    have : buf.drop ((i + 1) * p) = (buf.drop (i * p)).drop p := by
      rw [List.drop_drop, Nat.succ_mul, Nat.add_comm]
    rw [this, List.take_append_drop]

theorem lt_numParts_iff (S p k : Nat) (hp : 0 < p) : k < numParts S p ↔ k * p < S := by
  unfold numParts
  rw [Nat.lt_iff_add_one_le, Nat.le_div_iff_mul_le hp, Nat.succ_mul]
  omega

theorem MultipartUpload.loop_start (cfg : Config) (st : Store)
    (createdResp : CreateMultipartUploadOutput) (buf : List Byte) (fuel ufuel p : Nat)
    (hP : cfg.PartSize = (p : Int)) (hp : 0 < p) (hfuel : numParts buf.length p ≤ fuel)
    (w : World) :
    MultipartUpload.loop cfg st createdResp buf ufuel fuel 0 (buf.length : Int) 1 [] w =
      runParts cfg st createdResp ufuel ((List.range (numParts buf.length p)).map (partBody p buf))
        (buf.length : Int) 1 [] w := by
  have := MultipartUpload.loop_eq_runParts cfg st createdResp buf ufuel p hP hp
    (numParts buf.length p) 0 fuel 1 [] w (by simp) hfuel
  simpa [List.range_eq_range'] using this

/-- The run of `MultipartUpload` once the upload has been created, with the splitting
loop run over the part bodies. -/
theorem MultipartUpload_created (cfg : Config) (st : Store) (fuel ufuel p : Nat) (key : String)
    (buf : List Byte) (w : World) (createdResp : CreateMultipartUploadOutput)
    (hP : cfg.PartSize = (p : Int)) (hp : 0 < p) (hfuel : numParts buf.length p ≤ fuel)
    (hcreate : st.CreateMultipartUpload w.trace (createInput cfg key) = Reply.ok createdResp) :
    MultipartUpload cfg st fuel ufuel key buf w =
      (runParts cfg st createdResp ufuel
        ((List.range (numParts buf.length p)).map (partBody p buf)) (buf.length : Int) 1 []
        (w.record (Event.CreateMultipartUpload (createInput cfg key)
          (Reply.ok createdResp)))).map (MultipartUpload.finish st createdResp) := by
  unfold MultipartUpload
  simp only [hcreate, MultipartUpload.loop_start cfg st createdResp buf fuel ufuel p hP hp hfuel]

theorem inputsFrom_range (createdResp : CreateMultipartUploadOutput) (f : Nat → List Byte)
    (n : Nat) :
    inputsFrom createdResp ((List.range n).map f) 1 =
      (List.range n).map (fun j => uploadPartInput createdResp (f j) ((j : Int) + 1)) := by
  have := inputsFrom_range' createdResp f n 0
  simpa [List.range_eq_range'] using this

/-- The run of `MultipartUpload` when the upload is created and every part upload
succeeds within its retry budget. -/
theorem MultipartUpload_parts_succeed (cfg : Config) (st : Store) (fuel ufuel p : Nat)
    (key : String) (buf : List Byte) (w : World) (createdResp : CreateMultipartUploadOutput)
    (hP : cfg.PartSize = (p : Int)) (hp : 0 < p) (hR : 0 ≤ cfg.Retries)
    (hfuel : numParts buf.length p ≤ fuel) (hufuel : cfg.Retries < ufuel)
    (hcreate : st.CreateMultipartUpload w.trace (createInput cfg key) = Reply.ok createdResp)
    (hs : PartsSucceed cfg st) :
    ∃ (w1 : World) (ext : List Event) (cerr : Option Error),
      MultipartUpload cfg st fuel ufuel key buf w = some (Outcome.returned cerr, w1) ∧
      w1.trace = w.trace ++
        [Event.CreateMultipartUpload (createInput cfg key) (Reply.ok createdResp)] ++ ext ++
        [Event.CompleteMultipartUpload
          (completeInput createdResp ((ext.filterMap okPart).map (fun x => some (completedOf x))))
          cerr] ∧
      cerr = st.CompleteMultipartUpload
        (w.trace ++ [Event.CreateMultipartUpload (createInput cfg key) (Reply.ok createdResp)]
          ++ ext)
        (completeInput createdResp ((ext.filterMap okPart).map (fun x => some (completedOf x)))) ∧
      (ext.filterMap okPart).map Prod.fst =
        (List.range (numParts buf.length p)).map
          (fun j => uploadPartInput createdResp (partBody p buf j) ((j : Int) + 1)) ∧
      (∀ e ∈ ext, (∃ input out, e = Event.UploadPart input (Reply.ok out)) ∨
        (∃ input err h, e = failedPart input err ∧ st.UploadPart h input = Reply.error err)) := by
  obtain ⟨w1, ext, hrun, ht, hin, hev⟩ :=
    runParts_parts_succeed cfg st createdResp ufuel hR hufuel hs
      ((List.range (numParts buf.length p)).map (partBody p buf)) (buf.length : Int) 1 []
      (w.record (Event.CreateMultipartUpload (createInput cfg key) (Reply.ok createdResp)))
  rw [inputsFrom_range] at hin
  have ht' : w1.trace = w.trace ++
      [Event.CreateMultipartUpload (createInput cfg key) (Reply.ok createdResp)] ++ ext := by
    rw [ht]
    rfl
  rw [MultipartUpload_created cfg st fuel ufuel p key buf w createdResp hP hp hfuel hcreate, hrun]
  simp only [List.nil_append, Option.map_some', MultipartUpload.finish]
  cases hc : st.CompleteMultipartUpload w1.trace
      (completeInput createdResp ((ext.filterMap okPart).map (fun x => some (completedOf x)))) with
  | none =>
    refine ⟨_, ext, none, rfl, ?_, ?_, hin, hev⟩
    · simp [World.logLine, World.record, ht']
    · rw [← ht', hc]
  | some err =>
    refine ⟨_, ext, some err, rfl, ?_, ?_, hin, hev⟩
    · simp [World.logLine, World.record, ht']
    · rw [← ht', hc]

theorem filterMap_uploadInput_of_ok :
    ∀ (l : List Event), (∀ e ∈ l, ∃ input out, e = Event.UploadPart input (Reply.ok out)) →
      l.filterMap uploadInput = (l.filterMap okPart).map Prod.fst := by
  intro l
  induction l with
  | nil =>
    intro _
    rfl
  | cons e es ih =>
    intro h
    obtain ⟨input, out, rfl⟩ := h e (List.mem_cons_self _ _)
    have := ih (fun x hx => h x (List.mem_cons_of_mem _ hx))
    simp [uploadInput, okPart, this]

theorem Store.AlwaysSucceeds.partsSucceed (cfg : Config) (st : Store) (hR : 0 ≤ cfg.Retries)
    (hs : st.AlwaysSucceeds) : PartsSucceed cfg st := by
  intro h input errs hlen hf
  cases errs with
  | nil =>
    simp only [List.length_nil, Nat.cast_zero] at hlen
    omega
  | cons e es =>
    obtain ⟨out, hout⟩ := hs.2.1 h input
    rw [hf.1] at hout
    cases hout

/-- The run of `MultipartUpload` when every store call succeeds: it returns no error
and its upload-part calls are, in order, those of the bodies
`buf[j*P .. min((j+1)*P, S))` with part number `j + 1`. -/
theorem MultipartUpload_all_succeed (cfg : Config) (st : Store) (fuel ufuel p : Nat)
    (key : String) (buf : List Byte) (w : World)
    (hP : cfg.PartSize = (p : Int)) (hp : 0 < p) (hR : 0 ≤ cfg.Retries)
    (hfuel : numParts buf.length p ≤ fuel) (hufuel : cfg.Retries < ufuel)
    (hs : st.AlwaysSucceeds) :
    ∃ (createdResp : CreateMultipartUploadOutput) (w1 : World) (ext : List Event),
      MultipartUpload cfg st fuel ufuel key buf w = some (Outcome.returned none, w1) ∧
      w1.trace = w.trace ++ ext ∧
      ext.filterMap uploadInput =
        (List.range (numParts buf.length p)).map
          (fun j => uploadPartInput createdResp (partBody p buf j) ((j : Int) + 1)) := by
  obtain ⟨createdResp, hcreate⟩ := hs.1 w.trace (createInput cfg key)
  obtain ⟨w1, ext, cerr, hM, ht, hc, hin, hev⟩ :=
    MultipartUpload_parts_succeed cfg st fuel ufuel p key buf w createdResp hP hp hR hfuel
      hufuel hcreate (hs.partsSucceed cfg st hR)
  have hnone : cerr = none := by
    rw [hc]
    exact hs.2.2.2 _ _
  subst hnone
  have hok : ∀ e ∈ ext, ∃ input out, e = Event.UploadPart input (Reply.ok out) := by
    intro e he
    rcases hev e he with h | ⟨input, err, h, _, hh⟩
    · exact h
    · obtain ⟨out, hout⟩ := hs.2.1 h input
      rw [hh] at hout
      cases hout
  refine ⟨createdResp, w1,
    [Event.CreateMultipartUpload (createInput cfg key) (Reply.ok createdResp)] ++ ext ++
      [Event.CompleteMultipartUpload
        (completeInput createdResp ((ext.filterMap okPart).map (fun x => some (completedOf x))))
        none], hM, ?_, ?_⟩
  · rw [ht]
    simp
  · rw [List.filterMap_append, List.filterMap_append, filterMap_uploadInput_of_ok ext hok, hin]
    simp [uploadInput]

/-- C5: for every payload and part size `P > 0`, when the upload is created
and every part upload succeeds within its retry budget, `MultipartUpload`
makes, after the upload-part calls `ext`, exactly one complete call, as its
last store call, for the created upload, and returns the result of that
call; the list `Parts` it passes holds, in order, one completed part per
successful upload-part call, carrying the part number of that call and the
tag the store returned for it; the part numbers in `Parts` are exactly
`1, 2, ..., n` with `n = ceil(S / P)` and no entry is nil; and no abort call
is made (every store call between create and complete is an upload-part
call). -/
theorem MultipartUpload_completes_in_order (cfg : Config) (st : Store) (fuel ufuel p : Nat)
    (key : String) (buf : List Byte) (w : World) (createdResp : CreateMultipartUploadOutput)
    (hP : cfg.PartSize = (p : Int)) (hp : 0 < p) (hR : 0 ≤ cfg.Retries)
    (hfuel : numParts buf.length p ≤ fuel) (hufuel : cfg.Retries < ufuel)
    (hcreate : st.CreateMultipartUpload w.trace (createInput cfg key) = Reply.ok createdResp)
    (hs : PartsSucceed cfg st) :
    ∃ (w1 : World) (ext : List Event) (parts : List (UploadPartInput × UploadPartOutput))
      (cinput : CompleteMultipartUploadInput) (cerr : Option Error),
      MultipartUpload cfg st fuel ufuel key buf w = some (Outcome.returned cerr, w1) ∧
      w1.trace = w.trace ++
        [Event.CreateMultipartUpload (createInput cfg key) (Reply.ok createdResp)] ++ ext ++
        [Event.CompleteMultipartUpload cinput cerr] ∧
      cerr = st.CompleteMultipartUpload
        (w.trace ++ [Event.CreateMultipartUpload (createInput cfg key) (Reply.ok createdResp)]
          ++ ext) cinput ∧
      cinput.Bucket = createdResp.Bucket ∧
      cinput.Key = createdResp.Key ∧
      cinput.UploadId = createdResp.UploadId ∧
      cinput.Parts =
        parts.map (fun x => some { ETag := x.2.ETag, PartNumber := x.1.PartNumber }) ∧
      cinput.Parts.map (fun c => c.map (fun cp => cp.PartNumber)) =
        (List.range (numParts buf.length p)).map (fun j : Nat => some ((j : Int) + 1)) ∧
      (∀ e ∈ ext, ∃ input r, e = Event.UploadPart input r) ∧
      ext.filterMap okPart = parts ∧
      parts.map (fun x => x.1.PartNumber) =
        (List.range (numParts buf.length p)).map (fun j : Nat => (j : Int) + 1) := by
  obtain ⟨w1, ext, cerr, hM, ht, hc, hin, hev⟩ :=
    MultipartUpload_parts_succeed cfg st fuel ufuel p key buf w createdResp hP hp hR hfuel
      hufuel hcreate hs
  have hnums : (ext.filterMap okPart).map (fun x => x.1.PartNumber) =
      (List.range (numParts buf.length p)).map (fun j : Nat => (j : Int) + 1) := by
    have := congrArg (List.map (fun i : UploadPartInput => i.PartNumber)) hin
    simpa [Function.comp_def, uploadPartInput] using this
  refine ⟨w1, ext, ext.filterMap okPart,
    completeInput createdResp ((ext.filterMap okPart).map (fun x => some (completedOf x))),
    cerr, hM, ht, hc, rfl, rfl, rfl, rfl, ?_, ?_, rfl, hnums⟩
  · have h1 : (completeInput createdResp
        ((ext.filterMap okPart).map (fun x => some (completedOf x)))).Parts.map
        (fun c => c.map (fun cp => cp.PartNumber)) =
        ((ext.filterMap okPart).map (fun x => x.1.PartNumber)).map some := by
      simp [completeInput, completedOf, Function.comp_def]
    rw [h1, hnums, List.map_map]
    rfl
  · intro e he
    rcases hev e he with ⟨input, out, h⟩ | ⟨input, err, _, h, _⟩
    · exact ⟨input, Reply.ok out, h⟩
    · exact ⟨input, Reply.error err, h⟩

/-- The number `numParts S P` is `ceil(S / P)`: the least `m` with `S ≤ m * P`. -/
theorem numParts_le_iff (S p m : Nat) (hp : 0 < p) : numParts S p ≤ m ↔ S ≤ m * p := by
  have := lt_numParts_iff S p m hp
  omega

theorem flatten_partBody (p : Nat) (buf : List Byte) (hp : 0 < p) :
    ((List.range (numParts buf.length p)).map (partBody p buf)).flatten = buf := by
  have := join_partBody p buf hp (numParts buf.length p) 0 (by simp)
  simpa [List.range_eq_range'] using this

theorem sliceBytes_partBody (p : Nat) (buf : List Byte) (j : Nat) (hp : 0 < p)
    (hj : j < numParts buf.length p) :
    sliceBytes buf ((j * p : Nat) : Int) ((min ((j + 1) * p) buf.length : Nat) : Int) =
      some (partBody p buf j) := by
  have hlt : j * p < buf.length := (lt_numParts_iff _ p j hp).1 hj
  have := sliceBytes_part p buf j (Nat.le_of_lt hlt)
  have e : ((j * p : Nat) : Int) + ((min p (buf.length - j * p) : Nat) : Int) =
      ((min ((j + 1) * p) buf.length : Nat) : Int) := by
    rw [Nat.succ_mul]
    omega
  rw [e] at this
  exact this

/-- C1: for every payload of `S` bytes and part size `P > 0`, when every
store call succeeds, `MultipartUpload` returns no error and makes exactly
`ceil(S / P)` upload-part calls (`numParts S P`, the least `m` with
`S ≤ m * P`); the body lengths sum to `S`, every part but the last has
length exactly `P`, and the last has length between 1 and `P`; `S = 0` gives
no part. -/
theorem MultipartUpload_part_sizes (cfg : Config) (st : Store) (fuel ufuel p : Nat)
    (key : String) (buf : List Byte) (w : World)
    (hP : cfg.PartSize = (p : Int)) (hp : 0 < p) (hR : 0 ≤ cfg.Retries)
    (hfuel : numParts buf.length p ≤ fuel) (hufuel : cfg.Retries < ufuel)
    (hs : st.AlwaysSucceeds) :
    ∃ (w1 : World) (ext : List Event),
      MultipartUpload cfg st fuel ufuel key buf w = some (Outcome.returned none, w1) ∧
      w1.trace = w.trace ++ ext ∧
      (partLengths ext).length = numParts buf.length p ∧
      (∀ m : Nat, numParts buf.length p ≤ m ↔ buf.length ≤ m * p) ∧
      (partLengths ext).sum = buf.length ∧
      (∀ i : Nat, i + 1 < numParts buf.length p → (partLengths ext)[i]? = some p) ∧
      (∀ l : Nat, (partLengths ext).getLast? = some l → 1 ≤ l ∧ l ≤ p) ∧
      (buf.length = 0 → partLengths ext = []) := by
  obtain ⟨createdResp, w1, ext, hM, ht, hin⟩ :=
    MultipartUpload_all_succeed cfg st fuel ufuel p key buf w hP hp hR hfuel hufuel hs
  have hlens : partLengths ext =
      (List.range (numParts buf.length p)).map (fun j => min p (buf.length - j * p)) := by
    unfold partLengths
    rw [hin, List.map_map]
    apply List.map_congr_left
    intro j _
    simp [uploadPartInput, length_partBody]
  have hsum : (partLengths ext).sum = buf.length := by
    have h1 : partLengths ext =
        ((List.range (numParts buf.length p)).map (partBody p buf)).map List.length := by
      rw [hlens, List.map_map]
      apply List.map_congr_left
      intro j _
      simp [length_partBody]
    rw [h1, ← List.length_flatten, flatten_partBody p buf hp]
  refine ⟨w1, ext, hM, ht, by simp [hlens], fun m => numParts_le_iff _ p m hp, hsum, ?_, ?_, ?_⟩
  · intro i hi
    have hlt : (i + 1) * p < buf.length := (lt_numParts_iff _ p (i + 1) hp).1 hi
    rw [Nat.succ_mul] at hlt
    rw [hlens, List.getElem?_map, List.getElem?_range (by omega)]
    simp only [Option.map_some', Option.some.injEq]
    omega
  · intro l hl
    rw [hlens, List.getLast?_eq_getElem?, List.getElem?_map] at hl
    simp only [List.length_map, List.length_range] at hl
    by_cases hn : numParts buf.length p = 0
    · simp [hn] at hl
    · have hlt : (numParts buf.length p - 1) * p < buf.length :=
        (lt_numParts_iff _ p _ hp).1 (by omega)
      rw [List.getElem?_range (by omega)] at hl
      simp only [Option.map_some', Option.some.injEq] at hl
      omega
  · intro h0
    have : numParts buf.length p = 0 := (numParts_zero_iff _ p hp).2 h0
    simp [hlens, this]

/-- C2: for every payload `buf` of `S` bytes and part size `P > 0`, when
every store call succeeds, `MultipartUpload` returns no error (no slice is
out of range) and its `j`-th upload-part call, counted from 0, has part
number `j + 1` and carries the bytes `buf[j*P : min((j+1)*P, S)]`; the
bodies, concatenated in call order, give `buf`. -/
theorem MultipartUpload_part_bodies (cfg : Config) (st : Store) (fuel ufuel p : Nat)
    (key : String) (buf : List Byte) (w : World)
    (hP : cfg.PartSize = (p : Int)) (hp : 0 < p) (hR : 0 ≤ cfg.Retries)
    (hfuel : numParts buf.length p ≤ fuel) (hufuel : cfg.Retries < ufuel)
    (hs : st.AlwaysSucceeds) :
    ∃ (createdResp : CreateMultipartUploadOutput) (w1 : World) (ext : List Event),
      MultipartUpload cfg st fuel ufuel key buf w = some (Outcome.returned none, w1) ∧
      w1.trace = w.trace ++ ext ∧
      (ext.filterMap uploadInput).length = numParts buf.length p ∧
      (∀ j : Nat, j < numParts buf.length p →
        ∃ body : List Byte,
          sliceBytes buf ((j * p : Nat) : Int) ((min ((j + 1) * p) buf.length : Nat) : Int) =
            some body ∧
          (ext.filterMap uploadInput)[j]? =
            some (uploadPartInput createdResp body ((j : Int) + 1)) ∧
          (uploadPartInput createdResp body ((j : Int) + 1)).Body = body ∧
          (uploadPartInput createdResp body ((j : Int) + 1)).PartNumber = (j : Int) + 1) ∧
      ((ext.filterMap uploadInput).map (fun i => i.Body)).flatten = buf := by
  obtain ⟨createdResp, w1, ext, hM, ht, hin⟩ :=
    MultipartUpload_all_succeed cfg st fuel ufuel p key buf w hP hp hR hfuel hufuel hs
  refine ⟨createdResp, w1, ext, hM, ht, by simp [hin], ?_, ?_⟩
  · intro j hj
    refine ⟨partBody p buf j, sliceBytes_partBody p buf j hp hj, ?_, rfl, rfl⟩
    rw [hin, List.getElem?_map, List.getElem?_range hj]
    rfl
  · have h1 : (ext.filterMap uploadInput).map (fun i => i.Body) =
        (List.range (numParts buf.length p)).map (partBody p buf) := by
      rw [hin, List.map_map]
      apply List.map_congr_left
      intro j _
      rfl
    rw [h1, flatten_partBody p buf hp]

/-! ## Part numbers, failed aborts and termination for an arbitrary store -/

theorem MultipartUpload_create_failed (cfg : Config) (st : Store) (fuel ufuel : Nat)
    (key : String) (buf : List Byte) (w : World) (err : Error)
    (hcreate : st.CreateMultipartUpload w.trace (createInput cfg key) = Reply.error err) :
    MultipartUpload cfg st fuel ufuel key buf w =
      some (Outcome.returned (some err),
        (w.record (Event.CreateMultipartUpload (createInput cfg key) (Reply.error err))).logLine
          (LogLine.CreateFailed err)) := by
  unfold MultipartUpload
  simp only [hcreate]

/-- C9 (amended): for every payload of `S` bytes, every part size `P > 0`
and every store, each part number that `MultipartUpload` passes to the
store, in an upload-part call or in the list of the complete call, lies in
`1 .. ceil(S / P)`; it lies in `1 .. 10000` whenever `S ≤ 10000 * P`. -/
theorem MultipartUpload_part_numbers (cfg : Config) (st : Store) (fuel ufuel p : Nat)
    (key : String) (buf : List Byte) (w : World)
    (hP : cfg.PartSize = (p : Int)) (hp : 0 < p)
    (hfuel : numParts buf.length p ≤ fuel) (hufuel : cfg.Retries < ufuel) :
    ∃ (out : Outcome) (w1 : World) (ext : List Event),
      MultipartUpload cfg st fuel ufuel key buf w = some (out, w1) ∧
      w1.trace = w.trace ++ ext ∧
      (∀ input r, Event.UploadPart input r ∈ ext →
        1 ≤ input.PartNumber ∧ input.PartNumber ≤ numParts buf.length p ∧
        (buf.length ≤ 10000 * p → input.PartNumber ≤ 10000)) ∧
      (∀ input cerr cp, Event.CompleteMultipartUpload input cerr ∈ ext →
        some cp ∈ input.Parts →
        1 ≤ cp.PartNumber ∧ cp.PartNumber ≤ numParts buf.length p ∧
        (buf.length ≤ 10000 * p → cp.PartNumber ≤ 10000)) := by
  have hbound : buf.length ≤ 10000 * p → numParts buf.length p ≤ 10000 :=
    (numParts_le_iff buf.length p 10000 hp).2
  cases hcreate : st.CreateMultipartUpload w.trace (createInput cfg key) with
  | error err =>
    refine ⟨_, _, [Event.CreateMultipartUpload (createInput cfg key) (Reply.error err)],
      MultipartUpload_create_failed cfg st fuel ufuel key buf w err hcreate, ?_, ?_, ?_⟩
    · simp [World.logLine, World.record]
    · intro input r h
      simp at h
    · intro input cerr cp h
      simp at h
  | ok createdResp =>
    obtain ⟨res, w1, ext, lines, hrun, ht, -, hev, hex, -, -⟩ :=
      runParts_any cfg st createdResp ufuel hufuel
        ((List.range (numParts buf.length p)).map (partBody p buf)) (buf.length : Int) 1 []
        (w.record (Event.CreateMultipartUpload (createInput cfg key) (Reply.ok createdResp)))
    have hup : ∀ input r, Event.UploadPart input r ∈ ext →
        1 ≤ input.PartNumber ∧ input.PartNumber ≤ numParts buf.length p ∧
        (buf.length ≤ 10000 * p → input.PartNumber ≤ 10000) := by
      intro input r h
      rcases hev _ h with ⟨r1, j, b, hj, he⟩ | ⟨aerr, he⟩
      · obtain ⟨hlt, -⟩ := List.getElem?_eq_some_iff.1 hj
        simp only [List.length_map, List.length_range] at hlt
        cases he
        simp only [uploadPartInput]
        refine ⟨by omega, by omega, fun hS => ?_⟩
        have := hbound hS
        omega
      · cases he
    rw [MultipartUpload_created cfg st fuel ufuel p key buf w createdResp hP hp hfuel hcreate,
      hrun]
    simp only [Option.map_some']
    cases res with
    | panicked =>
      refine ⟨_, _, [Event.CreateMultipartUpload (createInput cfg key) (Reply.ok createdResp)]
        ++ ext, rfl, ?_, ?_, ?_⟩
      · simp [MultipartUpload.finish, ht, World.record]
      · intro input r h
        simp only [List.singleton_append, List.mem_cons] at h
        rcases h with h | h
        · cases h
        · exact hup input r h
      · intro input cerr cp h
        simp only [List.singleton_append, List.mem_cons] at h
        rcases h with h | h
        · cases h
        · rcases hev _ h with ⟨r1, j, b, -, he⟩ | ⟨aerr, he⟩ <;> cases he
    | returned aerr =>
      refine ⟨_, _, [Event.CreateMultipartUpload (createInput cfg key) (Reply.ok createdResp)]
        ++ ext, rfl, ?_, ?_, ?_⟩
      · simp [MultipartUpload.finish, ht, World.record]
      · intro input r h
        simp only [List.singleton_append, List.mem_cons] at h
        rcases h with h | h
        · cases h
        · exact hup input r h
      · intro input cerr cp h
        simp only [List.singleton_append, List.mem_cons] at h
        rcases h with h | h
        · cases h
        · rcases hev _ h with ⟨r1, j, b, -, he⟩ | ⟨aerr, he⟩ <;> cases he
    | exited cps1 =>
      obtain ⟨new, hnew, hlen, hnum, -⟩ := hex cps1 rfl
      refine ⟨_, (MultipartUpload.finish st createdResp (LoopResult.exited cps1, w1)).2,
        Event.CreateMultipartUpload (createInput cfg key) (Reply.ok createdResp) :: (ext ++
          [Event.CompleteMultipartUpload (completeInput createdResp cps1)
            (st.CompleteMultipartUpload w1.trace (completeInput createdResp cps1))]), rfl, ?_, ?_, ?_⟩
      · simp only [MultipartUpload.finish]
        cases st.CompleteMultipartUpload w1.trace (completeInput createdResp cps1) <;>
          simp [ht, World.record, World.logLine]
      · intro input r h
        rcases List.mem_cons.1 h with h | h
        · cases h
        · rcases List.mem_append.1 h with h | h
          · exact hup input r h
          · cases List.mem_singleton.1 h
      · intro input cerr cp h hcp
        rcases List.mem_cons.1 h with h | h
        · cases h
        · rcases List.mem_append.1 h with h | h
          · rcases hev _ h with ⟨r1, j, b, -, he⟩ | ⟨aerr, he⟩ <;> cases he
          · cases List.mem_singleton.1 h
            simp only [completeInput, hnew, List.nil_append] at hcp
            have h1 := hnum cp hcp
            simp only [List.length_map, List.length_range] at h1
            refine ⟨by omega, by omega, fun hS => ?_⟩
            have := hbound hS
            omega

/-- C8 (amended): for every payload, part size `P > 0` and store, when an
abort call of `MultipartUpload` fails with `aerr`, the error that
`MultipartUpload` returns is `aerr` itself, the abort call's error; that
abort is the last store call, made right after the last failed attempt of
the part, whose error `e` is written to the log (by `Upload`) just before
the abort failure and is not part of the returned value. -/
theorem MultipartUpload_returns_abort_error (cfg : Config) (st : Store) (fuel ufuel p : Nat)
    (key : String) (buf : List Byte) (w : World)
    (hP : cfg.PartSize = (p : Int)) (hp : 0 < p)
    (hfuel : numParts buf.length p ≤ fuel) (hufuel : cfg.Retries < ufuel) :
    ∃ (out : Outcome) (w1 : World) (ext : List Event) (lines : List LogLine),
      MultipartUpload cfg st fuel ufuel key buf w = some (out, w1) ∧
      w1.trace = w.trace ++ ext ∧
      w1.log = w.log ++ lines ∧
      (∀ ainp aerr, Event.AbortMultipartUpload ainp (some aerr) ∈ ext →
        out = Outcome.returned (some aerr) ∧
        ∃ (ext0 : List Event) (lines0 : List LogLine) (input : UploadPartInput) (e : Error),
          ext = ext0 ++ [failedPart input e, Event.AbortMultipartUpload ainp (some aerr)] ∧
          lines = lines0 ++ [LogLine.UploadPartFailed e, LogLine.AbortFailed aerr]) := by
  cases hcreate : st.CreateMultipartUpload w.trace (createInput cfg key) with
  | error err =>
    refine ⟨_, _, [Event.CreateMultipartUpload (createInput cfg key) (Reply.error err)],
      [LogLine.CreateFailed err],
      MultipartUpload_create_failed cfg st fuel ufuel key buf w err hcreate, ?_, ?_, ?_⟩
    · simp [World.logLine, World.record]
    · simp [World.logLine, World.record]
    · intro ainp aerr h
      cases List.mem_singleton.1 h
  | ok createdResp =>
    obtain ⟨res, w1, ext, lines, hrun, ht, hl, -, hex, hret, hpan⟩ :=
      runParts_any cfg st createdResp ufuel hufuel
        ((List.range (numParts buf.length p)).map (partBody p buf)) (buf.length : Int) 1 []
        (w.record (Event.CreateMultipartUpload (createInput cfg key) (Reply.ok createdResp)))
    rw [MultipartUpload_created cfg st fuel ufuel p key buf w createdResp hP hp hfuel hcreate,
      hrun]
    simp only [Option.map_some']
    cases res with
    | panicked => exact absurd rfl hpan
    | returned aerr1 =>
      obtain ⟨ext0, lines0, input, e, hext, hnone, hlines⟩ := hret aerr1 rfl
      refine ⟨_, _, Event.CreateMultipartUpload (createInput cfg key) (Reply.ok createdResp)
        :: ext, lines, rfl, ?_, ?_, ?_⟩
      · simp [MultipartUpload.finish, ht, World.record]
      · simp [MultipartUpload.finish, hl, World.record]
      · intro ainp aerr h
        have hlast : ainp = abortInput createdResp ∧ aerr = aerr1 := by
          rcases List.mem_cons.1 h with h | h
          · cases h
          · rw [hext] at h
            rcases List.mem_append.1 h with h | h
            · cases hnone ainp _ h
            · rcases List.mem_cons.1 h with h | h
              · cases h
              · cases List.mem_singleton.1 h
                exact ⟨rfl, rfl⟩
        obtain ⟨rfl, rfl⟩ := hlast
        refine ⟨rfl, Event.CreateMultipartUpload (createInput cfg key) (Reply.ok createdResp)
          :: ext0, lines0, input, e, ?_, hlines⟩
        rw [hext]
        rfl
    | exited cps1 =>
      obtain ⟨new, -, -, -, hnone⟩ := hex cps1 rfl
      refine ⟨_, (MultipartUpload.finish st createdResp (LoopResult.exited cps1, w1)).2,
        Event.CreateMultipartUpload (createInput cfg key) (Reply.ok createdResp) :: (ext ++
          [Event.CompleteMultipartUpload (completeInput createdResp cps1)
            (st.CompleteMultipartUpload w1.trace (completeInput createdResp cps1))]),
        lines ++ [match st.CompleteMultipartUpload w1.trace (completeInput createdResp cps1) with
          | some err => LogLine.CompleteFailed err
          | none => LogLine.CompleteSucceeded], rfl, ?_, ?_, ?_⟩
      · simp only [MultipartUpload.finish]
        cases st.CompleteMultipartUpload w1.trace (completeInput createdResp cps1) <;>
          simp [ht, World.record, World.logLine]
      · simp only [MultipartUpload.finish]
        cases st.CompleteMultipartUpload w1.trace (completeInput createdResp cps1) <;>
          simp [hl, World.record, World.logLine]
      · intro ainp aerr h
        rcases List.mem_cons.1 h with h | h
        · cases h
        · rcases List.mem_append.1 h with h | h
          · cases hnone ainp _ h
          · cases List.mem_singleton.1 h

theorem currentSizeOf_bounds (cfg : Config) (remaining : Int) (hP : 0 < cfg.PartSize)
    (hr : 0 < remaining) :
    1 ≤ currentSizeOf cfg remaining ∧ currentSizeOf cfg remaining ≤ remaining := by
  unfold currentSizeOf
  split <;> omega

/-- With `PartSize = 0` an iteration leaves `start` and `remaining` as they
are, so the splitting loop can only be left by the return after a failed abort. -/
theorem MultipartUpload.loop_zero_part_size (cfg : Config) (st : Store)
    (createdResp : CreateMultipartUploadOutput) (buf : List Byte) (ufuel : Nat)
    (remaining : Int) (hP : cfg.PartSize = 0) (hr : 0 < remaining) :
    ∀ (fuel : Nat) (partNum : Int) (cps : List (Option CompletedPart)) (w : World),
      MultipartUpload.loop cfg st createdResp buf ufuel fuel 0 remaining partNum cps w = none ∨
      ∃ (aerr : Error) (w1 : World) (ext0 : List Event),
        MultipartUpload.loop cfg st createdResp buf ufuel fuel 0 remaining partNum cps w =
          some (LoopResult.returned aerr, w1) ∧
        st.AbortMultipartUpload ext0 (abortInput createdResp) = some aerr ∧
        w1.trace = ext0 ++ [Event.AbortMultipartUpload (abortInput createdResp) (some aerr)] := by
  have hne : ¬ remaining = 0 := by omega
  have hcs : currentSizeOf cfg remaining = 0 := by
    unfold currentSizeOf
    rw [hP]
    split <;> omega
  have hslice : sliceBytes buf 0 0 = some [] := by
    simp [sliceBytes]
  intro fuel
  induction fuel with
  | zero =>
    intro partNum cps w
    left
    rw [MultipartUpload.loop.eq_def]
    simp [hne]
  | succ fuel ih =>
    intro partNum cps w
    rw [MultipartUpload.loop]
    simp only [if_neg hne, hcs, hslice, hP, Int.add_zero, Int.sub_zero]
    cases hU : Upload cfg st ufuel createdResp [] partNum w with
    | none => exact Or.inl rfl
    | some res =>
      obtain ⟨⟨completed, err⟩, w1⟩ := res
      simp only
      cases err with
      | none =>
        simp only
        exact ih _ _ _
      | some e =>
        simp only
        cases hA : st.AbortMultipartUpload w1.trace (abortInput createdResp) with
        | none =>
          simp only
          exact ih _ _ _
        | some aerr =>
          simp only
          exact Or.inr ⟨aerr, _, w1.trace, rfl, hA, by simp [World.logLine, World.record]⟩

/-- One iteration of the splitting loop for a part that is uploaded after
the failed attempts `errs`. -/
theorem runParts_cons_of_success (cfg : Config) (st : Store)
    (createdResp : CreateMultipartUploadOutput) (ufuel : Nat) (body : List Byte)
    (rest : List (List Byte)) (remaining partNum : Int) (cps : List (Option CompletedPart))
    (w : World) (errs : List Error) (out : UploadPartOutput)
    (hlen : (errs.length : Int) ≤ cfg.Retries) (hfuel : cfg.Retries < ufuel)
    (hf : FailsWith st (uploadPartInput createdResp body partNum) w.trace errs)
    (hok : st.UploadPart (w.afterFailures (uploadPartInput createdResp body partNum) errs).trace
      (uploadPartInput createdResp body partNum) = Reply.ok out) :
    runParts cfg st createdResp ufuel (body :: rest) remaining partNum cps w =
      runParts cfg st createdResp ufuel rest (remaining - body.length) (partNum + 1)
        (cps ++ [some { ETag := out.ETag, PartNumber := partNum }])
        (((w.afterFailures (uploadPartInput createdResp body partNum) errs).record
          (Event.UploadPart (uploadPartInput createdResp body partNum) (Reply.ok out))).logLine
          (LogLine.PartComplete partNum (remaining - body.length))) := by
  have hU := Upload.loop_fail_then_ok cfg st createdResp body partNum out errs 0 ufuel w
    (by omega) (by omega) hf hok
  rw [runParts, Upload, hU]

/-- One iteration of the splitting loop for a part whose `Retries + 1`
attempts all fail: abort is called, and unless abort fails the loop goes on
with the next part, with a nil entry in the list of completed parts. -/
theorem runParts_cons_of_exhausted (cfg : Config) (st : Store)
    (createdResp : CreateMultipartUploadOutput) (ufuel : Nat) (body : List Byte)
    (rest : List (List Byte)) (remaining partNum : Int) (cps : List (Option CompletedPart))
    (w : World) (errs : List Error)
    (hlen : (errs.length : Int) = cfg.Retries + 1) (hR : 0 ≤ cfg.Retries)
    (hfuel : cfg.Retries < ufuel)
    (hf : FailsWith st (uploadPartInput createdResp body partNum) w.trace errs) :
    runParts cfg st createdResp ufuel (body :: rest) remaining partNum cps w =
      match st.AbortMultipartUpload
          (w.afterFailures (uploadPartInput createdResp body partNum) errs).trace
          (abortInput createdResp) with
      | some aerr =>
        some (LoopResult.returned aerr,
          ((w.afterFailures (uploadPartInput createdResp body partNum) errs).record
            (Event.AbortMultipartUpload (abortInput createdResp) (some aerr))).logLine
            (LogLine.AbortFailed aerr))
      | none =>
        runParts cfg st createdResp ufuel rest (remaining - body.length) (partNum + 1)
          (cps ++ [none])
          (((w.afterFailures (uploadPartInput createdResp body partNum) errs).record
            (Event.AbortMultipartUpload (abortInput createdResp) none)).logLine
            (LogLine.PartComplete partNum (remaining - body.length))) := by
  have hU := Upload_all_fail cfg st ufuel createdResp body partNum w errs hfuel hlen hf
  obtain ⟨e, he⟩ : ∃ e, errs.getLast? = some e := by
    cases h : errs.getLast? with
    | some e => exact ⟨e, rfl⟩
    | none =>
      rw [List.getLast?_eq_none_iff] at h
      subst h
      simp only [List.length_nil, Nat.cast_zero] at hlen
      omega
  rw [he] at hU
  rw [runParts, hU]
  simp only
  cases st.AbortMultipartUpload
      (w.afterFailures (uploadPartInput createdResp body partNum) errs).trace
      (abortInput createdResp) <;> rfl

/-- C10 (amended): for every payload and part size `P > 0` the splitting
loop of `MultipartUpload` terminates whatever the store answers: in each
iteration `1 <= currentSize <= remaining`, and `ceil(S / P)` iterations are
enough for the loop to be left (without a slice out of range).  With
`P = 0` and a non-empty payload an iteration leaves `remaining` unchanged,
the loop is never left through its condition: it ends only by the return
that follows a failed abort, and does not terminate when no abort fails. -/
theorem MultipartUpload.loop_termination (cfg : Config) (st : Store)
    (createdResp : CreateMultipartUploadOutput) (buf : List Byte) (w : World) :
    (∀ p : Nat, cfg.PartSize = (p : Int) → 0 < p →
      (∀ remaining : Int, 0 < remaining →
        1 ≤ currentSizeOf cfg remaining ∧ currentSizeOf cfg remaining ≤ remaining) ∧
      (∀ fuel ufuel : Nat, numParts buf.length p ≤ fuel → cfg.Retries < ufuel →
        ∃ (res : LoopResult) (w1 : World),
          MultipartUpload.loop cfg st createdResp buf ufuel fuel 0 (buf.length : Int) 1 [] w =
            some (res, w1) ∧
          res ≠ LoopResult.panicked)) ∧
    (cfg.PartSize = 0 → buf ≠ [] →
      (∀ remaining : Int, 0 < remaining →
        remaining - currentSizeOf cfg remaining = remaining) ∧
      (∀ fuel ufuel : Nat,
        MultipartUpload.loop cfg st createdResp buf ufuel fuel 0 (buf.length : Int) 1 [] w = none ∨
        ∃ (aerr : Error) (w1 : World) (ext0 : List Event),
          MultipartUpload.loop cfg st createdResp buf ufuel fuel 0 (buf.length : Int) 1 [] w =
            some (LoopResult.returned aerr, w1) ∧
          st.AbortMultipartUpload ext0 (abortInput createdResp) = some aerr ∧
          w1.trace = ext0 ++
            [Event.AbortMultipartUpload (abortInput createdResp) (some aerr)]) ∧
      ((∀ h : List Event, st.AbortMultipartUpload h (abortInput createdResp) = none) →
        ∀ fuel ufuel : Nat,
          MultipartUpload.loop cfg st createdResp buf ufuel fuel 0 (buf.length : Int) 1 [] w =
            none)) := by
  constructor
  · intro p hP hp
    refine ⟨fun remaining hr => currentSizeOf_bounds cfg remaining (by omega) hr, ?_⟩
    intro fuel ufuel hfuel hufuel
    obtain ⟨res, w1, -, -, hrun, -, -, -, -, -, hpan⟩ :=
      runParts_any cfg st createdResp ufuel hufuel
        ((List.range (numParts buf.length p)).map (partBody p buf)) (buf.length : Int) 1 [] w
    exact ⟨res, w1, by
      rw [MultipartUpload.loop_start cfg st createdResp buf fuel ufuel p hP hp hfuel, hrun],
      hpan⟩
  · intro hP hne
    have hr : (0 : Int) < (buf.length : Int) := by
      have : 0 < buf.length := List.length_pos.2 hne
      omega
    refine ⟨?_, ?_, ?_⟩
    · intro remaining hrem
      unfold currentSizeOf
      rw [hP]
      split <;> omega
    · intro fuel ufuel
      exact MultipartUpload.loop_zero_part_size cfg st createdResp buf ufuel _ hP hr fuel 1 [] w
    · intro hA fuel ufuel
      rcases MultipartUpload.loop_zero_part_size cfg st createdResp buf ufuel _ hP hr fuel 1 [] w
        with h | ⟨aerr, w1, ext0, -, hab, -⟩
      · exact h
      · rw [hA ext0] at hab
        cases hab

/-! ## Runs of the example stores -/

theorem okStore_alwaysSucceeds : okStore.AlwaysSucceeds :=
  ⟨fun _ _ => ⟨_, rfl⟩, fun _ _ => ⟨_, rfl⟩, fun _ _ => rfl, fun _ _ => rfl⟩

theorem length_largePayload : largePayload.length = 5242881 := by
  unfold largePayload
  rw [List.length_replicate]

theorem length_hugePayload : hugePayload.length = 52428800001 := by
  unfold hugePayload
  rw [List.length_replicate]

/-- C6 (the code at the failing input): with the initial settings, a 1-byte
payload and a store that refuses all three attempts of part 1 and accepts
the abort, `MultipartUpload` calls abort, then goes on: it logs the part as
complete, calls complete with the list `[nil]` and returns no error. -/
theorem MultipartUpload_completes_after_failed_part :
    MultipartUpload (Config.initial "bucket") part1FailsStore 1 3 "key" [0] World.empty =
      some (Outcome.returned none,
        { trace :=
            [Event.CreateMultipartUpload (createInput (Config.initial "bucket") "key")
              (Reply.ok exampleUpload),
             Event.UploadPart (uploadPartInput exampleUpload [0] 1) (Reply.error "upload failed"),
             Event.UploadPart (uploadPartInput exampleUpload [0] 1) (Reply.error "upload failed"),
             Event.UploadPart (uploadPartInput exampleUpload [0] 1) (Reply.error "upload failed"),
             Event.AbortMultipartUpload (abortInput exampleUpload) none,
             Event.CompleteMultipartUpload (completeInput exampleUpload [none]) none]
          log :=
            [LogLine.UploadPartFailed "upload failed", LogLine.UploadPartFailed "upload failed",
             LogLine.UploadPartFailed "upload failed", LogLine.PartComplete 1 0,
             LogLine.CompleteSucceeded] }) := by
  decide

/-- C7 (the code at the failing input): with the initial settings, a
payload of 5 MiB + 1 byte and a store that refuses all three attempts of
part 1 and accepts the abort, `MultipartUpload` uploads part 2 after the
abort that follows the last attempt of part 1. -/
theorem MultipartUpload_uploads_after_failed_part :
    MultipartUpload (Config.initial "bucket") part1FailsStore 2 3 "key" largePayload
        World.empty =
      some (Outcome.returned none,
        { trace :=
            [Event.CreateMultipartUpload (createInput (Config.initial "bucket") "key")
              (Reply.ok exampleUpload),
             Event.UploadPart (uploadPartInput exampleUpload (partBody 5242880 largePayload 0) 1)
               (Reply.error "upload failed"),
             Event.UploadPart (uploadPartInput exampleUpload (partBody 5242880 largePayload 0) 1)
               (Reply.error "upload failed"),
             Event.UploadPart (uploadPartInput exampleUpload (partBody 5242880 largePayload 0) 1)
               (Reply.error "upload failed"),
             Event.AbortMultipartUpload (abortInput exampleUpload) none,
             Event.UploadPart (uploadPartInput exampleUpload (partBody 5242880 largePayload 1) 2)
               (Reply.ok { ETag := "etag" }),
             Event.CompleteMultipartUpload
               (completeInput exampleUpload [none, some { ETag := "etag", PartNumber := 2 }])
               none]
          log :=
            [LogLine.UploadPartFailed "upload failed", LogLine.UploadPartFailed "upload failed",
             LogLine.UploadPartFailed "upload failed", LogLine.PartComplete 1 1,
             LogLine.PartComplete 2 0, LogLine.CompleteSucceeded] }) := by
  have hn : numParts largePayload.length 5242880 = 2 := by
    rw [length_largePayload]
    decide
  have hb0 : ((partBody 5242880 largePayload 0).length : Int) = 5242880 := by
    rw [length_partBody, length_largePayload]
    decide
  have hb1 : ((partBody 5242880 largePayload 1).length : Int) = 1 := by
    rw [length_partBody, length_largePayload]
    decide
  rw [MultipartUpload_created (Config.initial "bucket") part1FailsStore 2 3 5242880 "key"
    largePayload World.empty exampleUpload rfl (by decide) (by rw [hn]) rfl, hn]
  have hr : (List.range 2).map (partBody 5242880 largePayload) =
      [partBody 5242880 largePayload 0, partBody 5242880 largePayload 1] := rfl
  rw [hr, length_largePayload]
  rw [runParts_cons_of_exhausted (Config.initial "bucket") part1FailsStore exampleUpload 3
    (partBody 5242880 largePayload 0) _ _ 1 [] _
    ["upload failed", "upload failed", "upload failed"] (by decide) (by decide) (by decide)
    ⟨rfl, rfl, rfl, trivial⟩]
  have ha : ∀ h, part1FailsStore.AbortMultipartUpload h (abortInput exampleUpload) = none :=
    fun _ => rfl
  simp only [ha]
  have hok : ∀ (h : List Event) (b : List Byte),
      part1FailsStore.UploadPart h (uploadPartInput exampleUpload b (1 + 1)) =
        Reply.ok { ETag := "etag" } := fun _ _ => rfl
  rw [runParts_cons_of_success (Config.initial "bucket") part1FailsStore exampleUpload 3
    (partBody 5242880 largePayload 1) [] _ (1 + 1) _ _ [] { ETag := "etag" } (by decide)
    (by decide) trivial (hok _ _)]
  rw [runParts, hb0, hb1]
  rfl

/-- C8 (counterexample): with the initial settings, a 1-byte payload and a
store that refuses every upload-part call with "upload failed" and the
abort with "abort failed", `MultipartUpload` returns the abort error alone;
the returned value is not the part-upload error. -/
theorem MultipartUpload_abort_error_masks_upload_error :
    MultipartUpload (Config.initial "bucket") deadStore 1 3 "key" [0] World.empty =
      some (Outcome.returned (some "abort failed"),
        { trace :=
            [Event.CreateMultipartUpload (createInput (Config.initial "bucket") "key")
              (Reply.ok exampleUpload),
             Event.UploadPart (uploadPartInput exampleUpload [0] 1) (Reply.error "upload failed"),
             Event.UploadPart (uploadPartInput exampleUpload [0] 1) (Reply.error "upload failed"),
             Event.UploadPart (uploadPartInput exampleUpload [0] 1) (Reply.error "upload failed"),
             Event.AbortMultipartUpload (abortInput exampleUpload) (some "abort failed")]
          log :=
            [LogLine.UploadPartFailed "upload failed", LogLine.UploadPartFailed "upload failed",
             LogLine.UploadPartFailed "upload failed", LogLine.AbortFailed "abort failed"] }) ∧
    Outcome.returned (some "abort failed") ≠ Outcome.returned (some "upload failed") := by
  decide

/-- C9 (counterexample): with the initial settings and a store in which
every call succeeds, a payload of 10000 * 5 MiB + 1 byte makes
`MultipartUpload` send an upload-part call with part number 10001. -/
theorem MultipartUpload_part_number_above_10000 :
    ∃ (w1 : World) (input : UploadPartInput),
      MultipartUpload (Config.initial "bucket") okStore 10001 3 "key" hugePayload World.empty =
        some (Outcome.returned none, w1) ∧
      input ∈ w1.trace.filterMap uploadInput ∧
      input.PartNumber = 10001 ∧
      ¬ (input.PartNumber ≤ 10000) := by
  have hn : numParts hugePayload.length 5242880 = 10001 := by
    rw [length_hugePayload]
    decide
  obtain ⟨createdResp, w1, ext, hM, ht, hin⟩ :=
    MultipartUpload_all_succeed (Config.initial "bucket") okStore 10001 3 5242880 "key"
      hugePayload World.empty rfl (by decide) (by decide) (by rw [hn]) (by decide)
      okStore_alwaysSucceeds
  refine ⟨w1, uploadPartInput createdResp (partBody 5242880 hugePayload 10000)
    (((10000 : Nat) : Int) + 1), hM, ?_, by simp [uploadPartInput], by simp [uploadPartInput]⟩
  have ht' : w1.trace = ext := by
    rw [ht]
    rfl
  rw [ht', hin, hn]
  exact List.mem_map.2 ⟨10000, List.mem_range.2 (by decide), rfl⟩

/-- C10 (counterexample): with `PartSize = 0`, a 1-byte payload and a store
that refuses every upload-part call and the abort, the splitting loop of
`MultipartUpload` is left in its first iteration. -/
theorem MultipartUpload.loop_returns_with_zero_part_size :
    MultipartUpload.loop zeroConfig deadStore exampleUpload [0] 3 1 0 1 1 [] World.empty =
      some (LoopResult.returned "abort failed",
        { trace :=
            [Event.UploadPart (uploadPartInput exampleUpload [] 1) (Reply.error "upload failed"),
             Event.UploadPart (uploadPartInput exampleUpload [] 1) (Reply.error "upload failed"),
             Event.UploadPart (uploadPartInput exampleUpload [] 1) (Reply.error "upload failed"),
             Event.AbortMultipartUpload (abortInput exampleUpload) (some "abort failed")]
          log :=
            [LogLine.UploadPartFailed "upload failed", LogLine.UploadPartFailed "upload failed",
             LogLine.UploadPartFailed "upload failed", LogLine.AbortFailed "abort failed"] }) := by
  decide

/-! ## Instances of the theorems above -/

theorem flakyStore_partsSucceed : PartsSucceed smallConfig flakyStore := by
  intro h input errs hlen hf
  match errs, hlen, hf with
  | [], hlen, _ => simp [smallConfig] at hlen
  | [_], hlen, _ => simp [smallConfig] at hlen
  | [_, _], hlen, _ => simp [smallConfig] at hlen
  | _ :: _ :: e3 :: _, _, hf =>
    have h3 := hf.2.2.1
    simp [flakyStore, failedPart] at h3

/-- An instance of C1: 5 bytes in 2-byte parts, every store call succeeding. -/
theorem MultipartUpload_part_sizes_witness :
    (smallConfig.PartSize = ((2 : Nat) : Int) ∧ 0 < 2 ∧ 0 ≤ smallConfig.Retries ∧
      numParts smallPayload.length 2 ≤ 3 ∧ smallConfig.Retries < ((3 : Nat) : Int) ∧
      okStore.AlwaysSucceeds) ∧
    ∃ (w1 : World) (ext : List Event),
      MultipartUpload smallConfig okStore 3 3 "key" smallPayload World.empty =
        some (Outcome.returned none, w1) ∧
      w1.trace = World.empty.trace ++ ext ∧
      (partLengths ext).length = numParts smallPayload.length 2 ∧
      (∀ m : Nat, numParts smallPayload.length 2 ≤ m ↔ smallPayload.length ≤ m * 2) ∧
      (partLengths ext).sum = smallPayload.length ∧
      (∀ i : Nat, i + 1 < numParts smallPayload.length 2 → (partLengths ext)[i]? = some 2) ∧
      (∀ l : Nat, (partLengths ext).getLast? = some l → 1 ≤ l ∧ l ≤ 2) ∧
      (smallPayload.length = 0 → partLengths ext = []) :=
  ⟨⟨rfl, by decide, by decide, by decide, by decide, okStore_alwaysSucceeds⟩,
    MultipartUpload_part_sizes smallConfig okStore 3 3 2 "key" smallPayload World.empty rfl
      (by decide) (by decide) (by decide) (by decide) okStore_alwaysSucceeds⟩

/-- An instance of C2: 5 bytes in 2-byte parts, every store call succeeding. -/
theorem MultipartUpload_part_bodies_witness :
    (smallConfig.PartSize = ((2 : Nat) : Int) ∧ 0 < 2 ∧ 0 ≤ smallConfig.Retries ∧
      numParts smallPayload.length 2 ≤ 3 ∧ smallConfig.Retries < ((3 : Nat) : Int) ∧
      okStore.AlwaysSucceeds) ∧
    ∃ (createdResp : CreateMultipartUploadOutput) (w1 : World) (ext : List Event),
      MultipartUpload smallConfig okStore 3 3 "key" smallPayload World.empty =
        some (Outcome.returned none, w1) ∧
      w1.trace = World.empty.trace ++ ext ∧
      (ext.filterMap uploadInput).length = numParts smallPayload.length 2 ∧
      (∀ j : Nat, j < numParts smallPayload.length 2 →
        ∃ body : List Byte,
          sliceBytes smallPayload ((j * 2 : Nat) : Int)
            ((min ((j + 1) * 2) smallPayload.length : Nat) : Int) = some body ∧
          (ext.filterMap uploadInput)[j]? =
            some (uploadPartInput createdResp body ((j : Int) + 1)) ∧
          (uploadPartInput createdResp body ((j : Int) + 1)).Body = body ∧
          (uploadPartInput createdResp body ((j : Int) + 1)).PartNumber = (j : Int) + 1) ∧
      ((ext.filterMap uploadInput).map (fun i => i.Body)).flatten = smallPayload :=
  ⟨⟨rfl, by decide, by decide, by decide, by decide, okStore_alwaysSucceeds⟩,
    MultipartUpload_part_bodies smallConfig okStore 3 3 2 "key" smallPayload World.empty rfl
      (by decide) (by decide) (by decide) (by decide) okStore_alwaysSucceeds⟩

/-- An instance of C3: two timeouts, then success, with `Retries = 2`. -/
theorem Upload_succeeds_on_last_attempt_witness :
    ((((["timeout", "timeout"] : List Error).length : Nat) : Int) =
        (Config.initial "bucket").Retries ∧
      (Config.initial "bucket").Retries < ((3 : Nat) : Int) ∧
      FailsWith flakyStore (uploadPartInput exampleUpload [1, 2, 3] 1) World.empty.trace
        ["timeout", "timeout"] ∧
      flakyStore.UploadPart
        (World.empty.trace ++
          (["timeout", "timeout"] : List Error).map
            (failedPart (uploadPartInput exampleUpload [1, 2, 3] 1)))
        (uploadPartInput exampleUpload [1, 2, 3] 1) = Reply.ok { ETag := "etag" }) ∧
    ∃ w1 : World,
      Upload (Config.initial "bucket") flakyStore 3 exampleUpload [1, 2, 3] 1 World.empty =
        some ((some { ETag := ({ ETag := "etag" } : UploadPartOutput).ETag, PartNumber := 1 },
          none), w1) ∧
      w1.trace = World.empty.trace ++
        ((["timeout", "timeout"] : List Error).map Reply.error ++
          [Reply.ok ({ ETag := "etag" } : UploadPartOutput)]).map
          (Event.UploadPart (uploadPartInput exampleUpload [1, 2, 3] 1)) ∧
      (((["timeout", "timeout"] : List Error).map
          (Reply.error : Error → Reply UploadPartOutput) ++
          [Reply.ok ({ ETag := "etag" } : UploadPartOutput)]).length : Int) = (Config.initial "bucket").Retries + 1 ∧
      (uploadPartInput exampleUpload [1, 2, 3] 1).Body = [1, 2, 3] ∧
      (uploadPartInput exampleUpload [1, 2, 3] 1).PartNumber = 1 :=
  ⟨⟨rfl, by decide, ⟨rfl, rfl, trivial⟩, rfl⟩,
    Upload_succeeds_on_last_attempt (Config.initial "bucket") flakyStore 3 exampleUpload
      [1, 2, 3] 1 World.empty ["timeout", "timeout"] { ETag := "etag" } rfl (by decide)
      ⟨rfl, rfl, trivial⟩ rfl⟩

/-- An instance of C4: a store that refuses every upload-part call, with `Retries = 2`. -/
theorem Upload_error_iff_retries_exhausted_witness :
    (0 ≤ (Config.initial "bucket").Retries ∧
      (Config.initial "bucket").Retries < ((3 : Nat) : Int)) ∧
    ∃ (completed : Option CompletedPart) (err : Option Error) (w1 : World),
      Upload (Config.initial "bucket") deadStore 3 exampleUpload [1, 2, 3] 1 World.empty =
        some ((completed, err), w1) ∧
      ((∃ e, err = some e) ↔
        ∃ errs : List Error, (errs.length : Int) = (Config.initial "bucket").Retries + 1 ∧
          FailsWith deadStore (uploadPartInput exampleUpload [1, 2, 3] 1) World.empty.trace
            errs) ∧
      (∀ errs : List Error, (errs.length : Int) = (Config.initial "bucket").Retries + 1 →
        FailsWith deadStore (uploadPartInput exampleUpload [1, 2, 3] 1) World.empty.trace errs →
        completed = none ∧ err = errs.getLast? ∧
        w1.trace = World.empty.trace ++
          errs.map (failedPart (uploadPartInput exampleUpload [1, 2, 3] 1))) ∧
      (∃ results : List (Reply UploadPartOutput),
        w1.trace = World.empty.trace ++
          results.map (Event.UploadPart (uploadPartInput exampleUpload [1, 2, 3] 1)) ∧
        (results.length : Int) ≤ (Config.initial "bucket").Retries + 1) :=
  ⟨⟨by decide, by decide⟩,
    Upload_error_iff_retries_exhausted (Config.initial "bucket") deadStore 3 exampleUpload
      [1, 2, 3] 1 World.empty (by decide) (by decide)⟩

/-- An instance of C5: the first part is uploaded at its second attempt. -/
theorem MultipartUpload_completes_in_order_witness :
    (smallConfig.PartSize = ((2 : Nat) : Int) ∧ 0 < 2 ∧ 0 ≤ smallConfig.Retries ∧
      numParts smallPayload.length 2 ≤ 3 ∧ smallConfig.Retries < ((3 : Nat) : Int) ∧
      flakyStore.CreateMultipartUpload World.empty.trace (createInput smallConfig "key") =
        Reply.ok exampleUpload ∧
      PartsSucceed smallConfig flakyStore) ∧
    ∃ (w1 : World) (ext : List Event) (parts : List (UploadPartInput × UploadPartOutput))
      (cinput : CompleteMultipartUploadInput) (cerr : Option Error),
      MultipartUpload smallConfig flakyStore 3 3 "key" smallPayload World.empty =
        some (Outcome.returned cerr, w1) ∧
      w1.trace = World.empty.trace ++
        [Event.CreateMultipartUpload (createInput smallConfig "key") (Reply.ok exampleUpload)]
        ++ ext ++
        [Event.CompleteMultipartUpload cinput cerr] ∧
      cerr = flakyStore.CompleteMultipartUpload
        (World.empty.trace ++
          [Event.CreateMultipartUpload (createInput smallConfig "key") (Reply.ok exampleUpload)]
          ++ ext) cinput ∧
      cinput.Bucket = exampleUpload.Bucket ∧
      cinput.Key = exampleUpload.Key ∧
      cinput.UploadId = exampleUpload.UploadId ∧
      cinput.Parts =
        parts.map (fun x => some { ETag := x.2.ETag, PartNumber := x.1.PartNumber }) ∧
      cinput.Parts.map (fun c => c.map (fun cp => cp.PartNumber)) =
        (List.range (numParts smallPayload.length 2)).map
          (fun j : Nat => some ((j : Int) + 1)) ∧
      (∀ e ∈ ext, ∃ input r, e = Event.UploadPart input r) ∧
      ext.filterMap okPart = parts ∧
      parts.map (fun x => x.1.PartNumber) =
        (List.range (numParts smallPayload.length 2)).map (fun j : Nat => (j : Int) + 1) :=
  ⟨⟨rfl, by decide, by decide, by decide, by decide, rfl, flakyStore_partsSucceed⟩,
    MultipartUpload_completes_in_order smallConfig flakyStore 3 3 2 "key" smallPayload
      World.empty exampleUpload rfl (by decide) (by decide) (by decide) (by decide) rfl
      flakyStore_partsSucceed⟩

/-- An instance of C8 (amended): every upload-part call and the abort fail. -/
theorem MultipartUpload_returns_abort_error_witness :
    ((Config.initial "bucket").PartSize = ((5242880 : Nat) : Int) ∧ 0 < 5242880 ∧
      numParts ([0] : List Byte).length 5242880 ≤ 1 ∧
      (Config.initial "bucket").Retries < ((3 : Nat) : Int)) ∧
    ∃ (out : Outcome) (w1 : World) (ext : List Event) (lines : List LogLine),
      MultipartUpload (Config.initial "bucket") deadStore 1 3 "key" [0] World.empty =
        some (out, w1) ∧
      w1.trace = World.empty.trace ++ ext ∧
      w1.log = World.empty.log ++ lines ∧
      (∀ ainp aerr, Event.AbortMultipartUpload ainp (some aerr) ∈ ext →
        out = Outcome.returned (some aerr) ∧
        ∃ (ext0 : List Event) (lines0 : List LogLine) (input : UploadPartInput) (e : Error),
          ext = ext0 ++ [failedPart input e, Event.AbortMultipartUpload ainp (some aerr)] ∧
          lines = lines0 ++ [LogLine.UploadPartFailed e, LogLine.AbortFailed aerr]) :=
  ⟨⟨rfl, by decide, by decide, by decide⟩,
    MultipartUpload_returns_abort_error (Config.initial "bucket") deadStore 1 3 5242880 "key"
      [0] World.empty rfl (by decide) (by decide) (by decide)⟩

/-- An instance of C9 (amended): 5 bytes in 2-byte parts, part 1 refused. -/
theorem MultipartUpload_part_numbers_witness :
    (smallConfig.PartSize = ((2 : Nat) : Int) ∧ 0 < 2 ∧
      numParts smallPayload.length 2 ≤ 3 ∧ smallConfig.Retries < ((3 : Nat) : Int)) ∧
    ∃ (out : Outcome) (w1 : World) (ext : List Event),
      MultipartUpload smallConfig part1FailsStore 3 3 "key" smallPayload World.empty =
        some (out, w1) ∧
      w1.trace = World.empty.trace ++ ext ∧
      (∀ input r, Event.UploadPart input r ∈ ext →
        1 ≤ input.PartNumber ∧ input.PartNumber ≤ numParts smallPayload.length 2 ∧
        (smallPayload.length ≤ 10000 * 2 → input.PartNumber ≤ 10000)) ∧
      (∀ input cerr cp, Event.CompleteMultipartUpload input cerr ∈ ext →
        some cp ∈ input.Parts →
        1 ≤ cp.PartNumber ∧ cp.PartNumber ≤ numParts smallPayload.length 2 ∧
        (smallPayload.length ≤ 10000 * 2 → cp.PartNumber ≤ 10000)) :=
  ⟨⟨rfl, by decide, by decide, by decide⟩,
    MultipartUpload_part_numbers smallConfig part1FailsStore 3 3 2 "key" smallPayload
      World.empty rfl (by decide) (by decide) (by decide)⟩

/-- An instance of C10 (amended): 2-byte parts with a failing store, and
`PartSize = 0` with a store in which every call succeeds. -/
theorem MultipartUpload.loop_termination_witness :
    (smallConfig.PartSize = ((2 : Nat) : Int) ∧ 0 < 2 ∧ (0 : Int) < 5 ∧
      numParts smallPayload.length 2 ≤ 3 ∧ smallConfig.Retries < ((3 : Nat) : Int) ∧
      zeroConfig.PartSize = 0 ∧ smallPayload ≠ [] ∧
      (∀ h : List Event, okStore.AbortMultipartUpload h (abortInput exampleUpload) = none)) ∧
    (1 ≤ currentSizeOf smallConfig 5 ∧ currentSizeOf smallConfig 5 ≤ 5) ∧
    (∃ (res : LoopResult) (w1 : World),
      MultipartUpload.loop smallConfig deadStore exampleUpload smallPayload 3 3 0
        (smallPayload.length : Int) 1 [] World.empty = some (res, w1) ∧
      res ≠ LoopResult.panicked) ∧
    (5 - currentSizeOf zeroConfig 5 = 5) ∧
    MultipartUpload.loop zeroConfig okStore exampleUpload smallPayload 3 100 0
      (smallPayload.length : Int) 1 [] World.empty = none :=
  ⟨⟨rfl, by decide, by decide, by decide, by decide, rfl, by decide, fun _ => rfl⟩,
    ((MultipartUpload.loop_termination smallConfig deadStore exampleUpload smallPayload
      World.empty).1 2 rfl (by decide)).1 5 (by decide),
    ((MultipartUpload.loop_termination smallConfig deadStore exampleUpload smallPayload
      World.empty).1 2 rfl (by decide)).2 3 3 (by decide) (by decide),
    ((MultipartUpload.loop_termination zeroConfig okStore exampleUpload smallPayload
      World.empty).2 rfl (by decide)).1 5 (by decide),
    ((MultipartUpload.loop_termination zeroConfig okStore exampleUpload smallPayload
      World.empty).2 rfl (by decide)).2.2 (fun _ => rfl) 100 3⟩

end S3
